import Mathlib

/-!
Verification of the LDAP-to-PostgreSQL migration tool (`ldap-postgresql`).

The definitions below are a shallow embedding of the TypeScript source:
`PasswordUtils` (src/utils/password.utils.ts), `DatabaseService`
(src/services/database.service.ts), `LdapService` (src/services/ldap.service.ts)
and `MigrationService` (src/services/migration.service.ts).

Modelling conventions:
* JavaScript string falsiness (`x || y`): `null`/`undefined` and the empty
  string are falsy.  Nullable database columns are `Option String` with
  `none` for SQL `NULL`.
* Strings are handled through their character lists, which matches the
  JavaScript regular expressions used by the source (all are anchored
  whole-string patterns over characters).
* The asynchronous runtime is linearised: a batch processed with
  `await Promise.allSettled` is modelled by folding over the batch in order.
  The loop in the source only continues after the whole batch has settled,
  and every statistics update is owned by a single task, so this
  linearisation is faithful for the state and counting properties below.
* External failures (database errors, directory errors) are injected through
  an `Oracle`; `true` means the corresponding operation succeeds.  Error
  message payloads coming from the driver are modelled by the fixed strings
  `DB_ERROR` / `LDAP_ERROR`.
* `bcrypt.hash` applied to the freshly generated random password in
  `convertLdapPassword` is modelled by a hash source `g : Nat -> String`
  together with a conversion counter threaded through the run: the n-th
  conversion performed by the process yields `g n`.  This also models the
  randomness: distinct conversions may yield distinct hashes.
* Timestamps (`created_at`, `updated_at`, `migration_date`, `duration`) are
  not modelled; neither is the Winston logger (its calls do not affect
  control flow and the source treats logging as non-failing).
* A call trace (`Event` list) records every Store Writer invocation so that
  claims about "zero upsert calls" are directly statable.
-/

namespace LdapPg

/-- JavaScript `incoming || stored` where `incoming` is a plain string
(empty string is falsy) and `stored` is a nullable column. -/
def jsOrStr (incoming : String) (stored : Option String) : Option String :=
  if incoming = "" then stored else some incoming

/-- JavaScript `incoming || stored` where `incoming` is itself nullable. -/
def jsOrOpt (incoming : Option String) (stored : Option String) : Option String :=
  match incoming with
  | none => stored
  | some s => if s = "" then stored else some s

/-- Character-list test that `p` begins with `tag` (JS regex `^\x7bTAG\x7d`). -/
def strStarts (tag : String) (p : String) : Bool :=
  p.data.take tag.data.length == tag.data

/-- One tagged pattern of `PasswordUtils.extractHashFromLdap`: the JS regex
`^\x7bTAG\x7d(.+)$` over the whole string.  `.` does not match a line
terminator, `(.+)` needs at least one character, and without the `m` flag
`$` only matches at the very end of the input. -/
def matchTag (tag : String) (p : String) : Option String :=
  let rest := p.data.drop tag.data.length
  if strStarts tag p && rest != [] && rest.all (fun c => c != '\n' && c != '\r')
  then some (String.mk rest) else none

/-- Model of `PasswordUtils.extractHashFromLdap`: tries the five tagged formats in
order; when no pattern matches, the source comments "assume it's already a
hash or plain text" and returns the input itself, so the result is never
`null` (the `Option` return type mirrors the declared `string | null`). -/
def extractHashFromLdap (ldapPassword : String) : Option String :=
  (matchTag "{SSHA}" ldapPassword).orElse fun _ =>
  (matchTag "{SHA}" ldapPassword).orElse fun _ =>
  (matchTag "{MD5}" ldapPassword).orElse fun _ =>
  (matchTag "{CRYPT}" ldapPassword).orElse fun _ =>
  (matchTag "{CLEARTEXT}" ldapPassword).orElse fun _ =>
  some ldapPassword

/-- Model of `PasswordUtils.isLdapHash`: false on the empty string, otherwise tests
the five recognised tag markers. -/
def isLdapHash (password : String) : Bool :=
  password != "" &&
  (strStarts "{SSHA}" password || strStarts "{SHA}" password ||
   strStarts "{MD5}" password || strStarts "{CRYPT}" password ||
   strStarts "{CLEARTEXT}" password)

/-- Model of `PasswordUtils.convertLdapPassword`.  Returns `null` for a falsy (empty)
input; otherwise extracts the hash (which never fails, see
`extractHashFromLdap`), generates a random password and bcrypt-hashes it.
The random generation plus `bcrypt.hash` is modelled by `g` and the
conversion counter `ctr`; the extracted hash data is discarded by the
source, exactly as here.  The second component is the updated counter. -/
def convertLdapPassword (g : Nat → String) (ctr : Nat) (ldapPassword : String) :
    Option String × Nat :=
  if ldapPassword = "" then (none, ctr)
  else
    match extractHashFromLdap ldapPassword with
    | none => (none, ctr)
    | some _ => (some (g ctr), ctr + 1)

/-- Row of the `clients` table (`Client` entity): generated identifier,
natural key `client_id` (the LDAP OU name) and an optional display name. -/
structure ClientRow where
  id : Nat
  client_id : String
  name : Option String
deriving DecidableEq, Repr

/-- Row of the `users` table (`User` entity), keyed by the
`(client_id, username)` composite unique key. -/
structure UserRow where
  id : Nat
  client_id : Nat
  username : String
  first_name : Option String
  last_name : Option String
  email : Option String
  password_hash : Option String
  ldap_dn : String
deriving DecidableEq, Repr

/-- Row of the `migration_log` table. -/
structure MigLogRow where
  total_clients : Nat
  total_users : Nat
  successful_clients : Nat
  successful_users : Nat
  failed_clients : Nat
  failed_users : Nat
  error_log : Option String
  dry_run : Bool
deriving DecidableEq, Repr

/-- The PostgreSQL store: the three tables plus the generated-identifier
sources (`SERIAL`-like counters standing for the generated primary keys). -/
structure DbState where
  clients : List ClientRow
  users : List UserRow
  migrationLog : List MigLogRow
  nextClientId : Nat
  nextUserId : Nat
deriving DecidableEq, Repr

/-- A freshly initialised, empty store. -/
def emptyDb : DbState := ⟨[], [], [], 0, 0⟩

/-- Model of `clientRepository.findOne(\x7b where: \x7b client_id \x7d \x7d)`. -/
def findClient (l : List ClientRow) (clientId : String) : Option ClientRow :=
  l.find? (fun c => c.client_id == clientId)

/-- Model of `userRepository.findOne(\x7b where: \x7b client_id, username \x7d \x7d)`. -/
def findUser (l : List UserRow) (clientId : Nat) (username : String) : Option UserRow :=
  l.find? (fun u => u.client_id == clientId && u.username == username)

/-- Model of `repository.save` of an already-loaded client entity: replaces the row
with the matching primary key. -/
def saveClient (l : List ClientRow) (c : ClientRow) : List ClientRow :=
  l.map (fun x => if x.id == c.id then c else x)

/-- Model of `repository.save` of an already-loaded user entity. -/
def saveUser (l : List UserRow) (u : UserRow) : List UserRow :=
  l.map (fun x => if x.id == u.id then u else x)

/-- Model of `MigrationStats` from src/services/migration.service.ts. -/
structure MigrationStats where
  totalClients : Nat
  totalUsers : Nat
  successfulClients : Nat
  successfulUsers : Nat
  failedClients : Nat
  failedUsers : Nat
  errors : List String
deriving DecidableEq, Repr

/-- The all-zero statistics `migrate()` starts from. -/
def zeroStats : MigrationStats := ⟨0, 0, 0, 0, 0, 0, []⟩

/-- Model of `MigrationResult` from src/services/migration.service.ts
(`duration` is wall-clock time and is not modelled). -/
structure MigrationResult where
  success : Bool
  stats : MigrationStats
  dryRun : Bool
deriving DecidableEq, Repr

/-- Model of `UserData` from src/services/ldap.service.ts: every attribute is a
string, absent LDAP attributes having been replaced by `''`. -/
structure UserData where
  uid : String
  givenName : String
  sn : String
  mail : String
  userPassword : String
  dn : String
deriving DecidableEq, Repr

/-- The argument of `DatabaseService.upsertUser`: `UserData` spread together
with the converted `password_hash` (`string | null`). -/
structure DbUserData where
  uid : String
  givenName : String
  sn : String
  mail : String
  password_hash : Option String
  dn : String
deriving DecidableEq, Repr

/-- Model of `DatabaseService.upsertClient`.  `ok = false` injects a database error,
which the source wraps and rethrows.  On a hit the row is updated with
`name = name || client.name`; on a miss a new row is created with a fresh
generated identifier. -/
def upsertClient (ok : Bool) (st : DbState) (clientId : String) (name : Option String) :
    Except String (ClientRow × DbState) :=
  if !ok then .error ("Client upsert failed for " ++ clientId ++ ": DB_ERROR")
  else
    match findClient st.clients clientId with
    | some c =>
        let c' : ClientRow := { c with name := jsOrOpt name c.name }
        .ok (c', { st with clients := saveClient st.clients c' })
    | none =>
        let c : ClientRow := { id := st.nextClientId, client_id := clientId, name := name }
        .ok (c, { st with clients := st.clients ++ [c],
                          nextClientId := st.nextClientId + 1 })

/-- Model of `DatabaseService.upsertUser`.  On a hit, each of `first_name`,
`last_name`, `email`, `password_hash` is merged with `incoming || stored`,
while `ldap_dn` is overwritten unconditionally; on a miss a new row is
created storing the incoming attributes as given (an empty incoming string
is stored as the empty string, not as `NULL`). -/
def upsertUser (ok : Bool) (st : DbState) (userData : DbUserData) (clientId : Nat) :
    Except String (UserRow × DbState) :=
  if !ok then .error ("User upsert failed for " ++ userData.uid ++ ": DB_ERROR")
  else
    match findUser st.users clientId userData.uid with
    | some u =>
        let u' : UserRow := { u with
          first_name := jsOrStr userData.givenName u.first_name,
          last_name := jsOrStr userData.sn u.last_name,
          email := jsOrStr userData.mail u.email,
          password_hash := jsOrOpt userData.password_hash u.password_hash,
          ldap_dn := userData.dn }
        .ok (u', { st with users := saveUser st.users u' })
    | none =>
        let u : UserRow :=
          { id := st.nextUserId, client_id := clientId,
            username := userData.uid,
            first_name := some userData.givenName,
            last_name := some userData.sn,
            email := some userData.mail,
            password_hash := userData.password_hash,
            ldap_dn := userData.dn }
        .ok (u, { st with users := st.users ++ [u], nextUserId := st.nextUserId + 1 })

/-- Model of `DatabaseService.logMigrationRun`.  The source reads `stats.errorLog`
and `stats.dryRun`; neither field exists on `MigrationStats` (which carries
`errors` and no dry-run flag), so the inserted row always gets
`error_log = null` and `dry_run = false`.  A failing insert is caught and
swallowed (`ok = false` leaves the store unchanged and does not propagate). -/
def logMigrationRun (ok : Bool) (st : DbState) (stats : MigrationStats) : DbState :=
  if !ok then st
  else { st with migrationLog := st.migrationLog ++ [{
    total_clients := stats.totalClients,
    total_users := stats.totalUsers,
    successful_clients := stats.successfulClients,
    successful_users := stats.successfulUsers,
    failed_clients := stats.failedClients,
    failed_users := stats.failedUsers,
    error_log := none,
    dry_run := false }] }

/-- One entry of the directory: an organizational unit as returned by
`LdapService.searchClients` (`ou`, `dn`) together with the user entries
that `LdapService.searchUsers(ou)` would enumerate beneath it (before the
`uid`-present filter applied inside `searchUsers`). -/
structure LdapClientEntry where
  ou : String
  dn : String
  users : List UserData
deriving DecidableEq, Repr

/-- Failure injection for the external collaborators.  `true` means the
operation succeeds; a user upsert is addressed by the database client
identifier and the username. -/
structure Oracle where
  connectOk : Bool
  initTablesOk : Bool
  searchClientsOk : Bool
  clientUpsertOk : String → Bool
  searchUsersOk : String → Bool
  userUpsertOk : Nat → String → Bool
  logOk : Bool

/-- The oracle of a run in which every external operation succeeds. -/
def allOk : Oracle :=
  ⟨true, true, true, fun _ => true, fun _ => true, fun _ _ => true, true⟩

/-- Store Writer call trace events. -/
inductive Event where
  | clientUpsertCall (ou : String)
  | userUpsertCall (clientId : Nat) (uid : String)
  | logInsert
deriving DecidableEq, Repr

/-- The mutable context threaded through client/user processing: the store,
the conversion counter, the call trace and the statistics accumulator. -/
structure PState where
  db : DbState
  ctr : Nat
  trace : List Event
  stats : MigrationStats
deriving DecidableEq, Repr

/-- Model of `MigrationService.processUser`: converts the password when one is
present, upserts the user, and counts the outcome.  The source catches
every error locally, so `processUser` never throws: a failing upsert
increments `failedUsers` and appends one message to `errors`. -/
def processUser (o : Oracle) (g : Nat → String) (clientId : Nat)
    (ps : PState) (userData : UserData) : PState :=
  let conv := convertLdapPassword g ps.ctr userData.userPassword
  let d : DbUserData :=
    { uid := userData.uid, givenName := userData.givenName,
      sn := userData.sn, mail := userData.mail, password_hash := conv.1,
      dn := userData.dn }
  let tr := ps.trace ++ [Event.userUpsertCall clientId userData.uid]
  match upsertUser (o.userUpsertOk clientId userData.uid) ps.db d clientId with
  | .ok (_, db') =>
      { ps with
        db := db', ctr := conv.2, trace := tr,
        stats := { ps.stats with successfulUsers := ps.stats.successfulUsers + 1 } }
  | .error msg =>
      { ps with
        ctr := conv.2, trace := tr,
        stats :=
          { ps.stats with
            failedUsers := ps.stats.failedUsers + 1,
            errors := ps.stats.errors ++ ["User " ++ userData.uid ++ ": " ++ msg] } }

/-- Fuel-driven helper for `chunkList` (structural recursion so that
concrete runs reduce); the fuel is always at least the list length. -/
def chunkListAux (fuel : Nat) (bs : Nat) (l : List α) : List (List α) :=
  match fuel, l with
  | _, [] => []
  | 0, l => [l]
  | fuel + 1, a :: l' => (a :: l'.take (bs - 1)) :: chunkListAux fuel bs (l'.drop (bs - 1))

/-- The slices `users.slice(i, i + batchSize)` taken by the batch loop of
`MigrationService.processClient`, for `i = 0, bs, 2*bs, ...`.  For
`bs = 0` the source loop would not terminate; the model then yields
singleton chunks (no claim depends on a zero batch size, whose configured
default is 100). -/
def chunkList (bs : Nat) (l : List α) : List (List α) :=
  chunkListAux l.length bs l

/-- The batch loop of `MigrationService.processClient`: batches are
processed one after the other, and inside a batch every user is processed
and settled (`await Promise.allSettled`), here linearised in list order. -/
def processUsers (o : Oracle) (g : Nat → String) (bs : Nat) (clientId : Nat)
    (ps : PState) (users : List UserData) : PState :=
  (chunkList bs users).foldl
    (fun ps batch => batch.foldl (processUser o g clientId) ps) ps

/-- Model of `MigrationService.processClient`: upserts the client first, then
enumerates its users (`searchUsers` keeps only entries with a `uid`),
adds them to `totalUsers`, and runs the batch loop.  A thrown error is
surfaced as `.error` together with the state at the throw point (the
client upsert throwing leaves the store untouched; `searchUsers` throwing
happens after the client row was already written). -/
def processClient (o : Oracle) (g : Nat → String) (bs : Nat)
    (ps : PState) (c : LdapClientEntry) : Except (String × PState) PState :=
  let tr := ps.trace ++ [Event.clientUpsertCall c.ou]
  match upsertClient (o.clientUpsertOk c.ou) ps.db c.ou none with
  | .error msg => .error (msg, { ps with trace := tr })
  | .ok (dbClient, db') =>
      if o.searchUsersOk c.ou then
        let users := c.users.filter (fun u => u.uid != "")
        let ps' : PState :=
          { db := db', ctr := ps.ctr, trace := tr,
            stats := { ps.stats with totalUsers := ps.stats.totalUsers + users.length } }
        .ok (processUsers o g bs dbClient.id ps' users)
      else
        .error ("LDAP user search failed for " ++ c.ou ++ ": LDAP_ERROR",
          { ps with db := db', trace := tr })

/-- Step 3 of `MigrationService.migrate`: each client is processed inside a
`try`; success increments `successfulClients`, a thrown error increments
`failedClients` and appends one message, and the loop always continues
with the next client. -/
def migrateLoop (o : Oracle) (g : Nat → String) (bs : Nat)
    (ps : PState) (cs : List LdapClientEntry) : PState :=
  cs.foldl
    (fun ps c =>
      match processClient o g bs ps c with
      | .ok ps' =>
          { ps' with stats :=
            { ps'.stats with successfulClients := ps'.stats.successfulClients + 1 } }
      | .error (msg, ps') =>
          { ps' with stats := { ps'.stats with
              failedClients := ps'.stats.failedClients + 1,
              errors := ps'.stats.errors ++ ["Client " ++ c.ou ++ ": " ++ msg] } })
    ps

/-- Process-wide state around a run: the store, the conversion counter, the
call trace, and the two connections (`LdapService.isConnected`, and whether
the TypeORM `DataSource` opened by the `DatabaseService` constructor is
still initialised). -/
structure RunState where
  db : DbState
  hashCtr : Nat
  trace : List Event
  ldapConnected : Bool
  dbConnected : Bool
deriving DecidableEq, Repr

/-- Model of `LdapService.disconnect`: unbinds only when connected (the model takes
the unbind itself to succeed; a failing unbind is merely logged). -/
def disconnectLdap (rs : RunState) : RunState :=
  if rs.ldapConnected then { rs with ldapConnected := false } else rs

/-- The filter inside `LdapService.searchClients`: keeps entries with a
non-empty `ou` different from the structural `'clients'` container. -/
def filterClients (d : List LdapClientEntry) : List LdapClientEntry :=
  d.filter (fun c => c.ou != "" && c.ou != "clients")

/-- Model of `MigrationService.migrate`.  Connects (LDAP bind, then table
initialisation), enumerates the clients, runs the per-client loop, builds
the `MigrationResult` (`success` iff no client and no user failure,
`dryRun` copied from the configuration), persists the run summary through
`logMigrationRun`, and returns.  A connection or enumeration failure is
rethrown to the caller.  The `finally` block releases the LDAP connection
on every exit path; nothing in `migrate` releases the database connection.
The `dryRun` flag is consulted nowhere else: the store operations run
identically in dry-run mode. -/
def migrate (o : Oracle) (g : Nat → String) (bs : Nat) (dryRun : Bool)
    (d : List LdapClientEntry) (rs : RunState) :
    Except String MigrationResult × RunState :=
  if !o.connectOk then
    (.error "LDAP connection failed: LDAP_ERROR", disconnectLdap rs)
  else
    let rs1 : RunState := { rs with ldapConnected := true }
    if !o.initTablesOk then
      (.error "Table initialization failed: DB_ERROR", disconnectLdap rs1)
    else if !o.searchClientsOk then
      (.error "LDAP client search failed: LDAP_ERROR", disconnectLdap rs1)
    else
      let clients := filterClients d
      let stats0 : MigrationStats := { zeroStats with totalClients := clients.length }
      let ps0 : PState :=
        { db := rs1.db, ctr := rs1.hashCtr, trace := rs1.trace, stats := stats0 }
      let ps := migrateLoop o g bs ps0 clients
      let result : MigrationResult := {
        success := ps.stats.failedClients == 0 && ps.stats.failedUsers == 0,
        stats := ps.stats,
        dryRun := dryRun }
      let db' := logMigrationRun o.logOk ps.db ps.stats
      let tr' := if o.logOk then ps.trace ++ [Event.logInsert] else ps.trace
      (.ok result, disconnectLdap { rs1 with db := db', hashCtr := ps.ctr, trace := tr' })

/-! Support predicates used by the statements and proofs below. -/

/-- Two user rows that agree on everything except possibly the stored
password hash (which `convertLdapPassword` regenerates on every run). -/
def sameExceptHash (a b : UserRow) : Prop :=
  a.id = b.id ∧ a.client_id = b.client_id ∧ a.username = b.username ∧
  a.first_name = b.first_name ∧ a.last_name = b.last_name ∧
  a.email = b.email ∧ a.ldap_dn = b.ldap_dn

/-- Store equivalence up to regenerated password hashes: identical client
table, identifier sources, and row-wise `sameExceptHash` user tables (the
append-only `migration_log` audit table is not part of the migrated data). -/
def DbEquiv (a b : DbState) : Prop :=
  a.clients = b.clients ∧ List.Forall₂ sameExceptHash a.users b.users ∧
  a.nextClientId = b.nextClientId ∧ a.nextUserId = b.nextUserId

/-- Well-formedness the store enjoys along any run that starts from an
empty store: generated identifiers are pairwise distinct and below the
corresponding identifier source. -/
def WfDb (db : DbState) : Prop :=
  (db.clients.map (fun r => r.id)).Nodup ∧
  (∀ r ∈ db.clients, r.id < db.nextClientId) ∧
  (db.users.map (fun r => r.id)).Nodup ∧
  (∀ r ∈ db.users, r.id < db.nextUserId)

/-- The user row for `(clientId, u.uid)` exists and is a fixpoint of the
merge-preserve-existing update for `u`'s attributes (so re-upserting `u`
rewrites the same values, except possibly the password hash). -/
def UserKeyFact (db : DbState) (clientId : Nat) (u : UserData) : Prop :=
  ∃ urow, findUser db.users clientId u.uid = some urow ∧
    urow.first_name = jsOrStr u.givenName urow.first_name ∧
    urow.last_name = jsOrStr u.sn urow.last_name ∧
    urow.email = jsOrStr u.mail urow.email ∧
    urow.ldap_dn = u.dn

/-- The client row for `c` exists and every one of `c`'s (usable) users
already has a fixpoint row under that client's identifier. -/
def ClientFact (db : DbState) (c : LdapClientEntry) : Prop :=
  ∃ crow, findClient db.clients c.ou = some crow ∧
    ∀ u ∈ c.users.filter (fun x => x.uid != ""), UserKeyFact db crow.id u

/-- Every client the run enumerates already has its data in the store. -/
def Saturated (d : List LdapClientEntry) (db : DbState) : Prop :=
  ∀ c ∈ filterClients d, ClientFact db c

/-! Concrete inputs used for witnesses and counterexamples. -/

/-- Deterministic stand-in for the bcrypt hash source: the n-th conversion
of the process yields a distinct hash string. -/
def gSeq : Nat → String := fun n => "BCRYPT" ++ toString n

/-- The error entry `migrate` appends for a user whose upsert failed:
`processUser` pushes `User $\x7buid\x7d: $\x7bmessage\x7d` around the wrapped
driver error thrown by `upsertUser`. -/
def userFailMsg (uid : String) : String :=
  "User " ++ uid ++ ": " ++ ("User upsert failed for " ++ uid ++ ": DB_ERROR")

/-- The error entry `migrate` appends for a client whose own upsert failed. -/
def clientFailMsg (ou : String) : String :=
  "Client " ++ ou ++ ": " ++ ("Client upsert failed for " ++ ou ++ ": DB_ERROR")

/-- A directory user entry with a tagged SSHA credential. -/
def userOne : UserData :=
  { uid := "user1", givenName := "U", sn := "One", mail := "u1@x.com",
    userPassword := "{SSHA}abc", dn := "uid=user1,ou=clientA,dc=example,dc=com" }

/-- A second directory user entry, without a stored credential. -/
def userTwo : UserData :=
  { uid := "user2", givenName := "V", sn := "Two", mail := "",
    userPassword := "", dn := "uid=user2,ou=clientB,dc=example,dc=com" }

/-- A one-user client entry. -/
def entryA : LdapClientEntry :=
  { ou := "clientA", dn := "ou=clientA,dc=example,dc=com", users := [userOne] }

/-- A second one-user client entry. -/
def entryB : LdapClientEntry :=
  { ou := "clientB", dn := "ou=clientB,dc=example,dc=com", users := [userTwo] }

/-- A one-client, one-user directory. -/
def dirOne : List LdapClientEntry := [entryA]

/-- The per-run processing state `migrate` starts its client loop from when
the store is empty and nothing has been traced yet. -/
def psStart : PState :=
  { db := emptyDb, ctr := 0, trace := [], stats := zeroStats }

/-- The processing state right after `processClient` has created a fresh
client row and accounted the client's users, just before the batch loop
(used to phrase the first-run characterisation). -/
def afterClientInsert (S : PState) (c : LdapClientEntry) : PState :=
  { db :=
      { S.db with
        clients := S.db.clients ++ [⟨S.db.nextClientId, c.ou, none⟩],
        nextClientId := S.db.nextClientId + 1 },
    ctr := S.ctr,
    trace := S.trace ++ [Event.clientUpsertCall c.ou],
    stats :=
      { S.stats with
        totalUsers := S.stats.totalUsers +
          (c.users.filter (fun u => u.uid != "")).length } }

/-- Process state before a run: empty store, LDAP not yet bound, the
TypeORM data source opened by the `DatabaseService` constructor. -/
def runStart : RunState :=
  { db := emptyDb, hashCtr := 0, trace := [], ldapConnected := false, dbConnected := true }

/-- Oracle of a run where connection and table initialisation succeed but
the client enumeration (`searchClients`) throws. -/
def oracleSearchFail : Oracle :=
  { allOk with searchClientsOk := false }

/-- Oracle of a run that succeeds everywhere except that the run-summary
insert of `logMigrationRun` fails (and is swallowed). -/
def oracleLogFail : Oracle :=
  { allOk with logOk := false }

/-- Oracle of a run where every client upsert fails. -/
def oracleClientFail : Oracle :=
  { allOk with clientUpsertOk := fun _ => false }

/-- Oracle of a run whose LDAP bind fails. -/
def oracleConnectFail : Oracle :=
  { allOk with connectOk := false }

/-- Oracle of a run whose table initialisation fails. -/
def oracleInitFail : Oracle :=
  { allOk with initTablesOk := false }

/-- The processing state reached by `migrate`'s client loop on a normal
run: the loop applied to the enumerated (filtered) clients, starting from
the caller's store with fresh statistics. -/
def loopState (o : Oracle) (g : Nat → String) (bs : Nat)
    (d : List LdapClientEntry) (rs : RunState) : PState :=
  migrateLoop o g bs
    { db := rs.db, ctr := rs.hashCtr, trace := rs.trace,
      stats := { zeroStats with totalClients := (filterClients d).length } }
    (filterClients d)

/-- A stored user row with every attribute populated. -/
def storedUser : UserRow :=
  { id := 0, client_id := 0, username := "user1", first_name := some "Old",
    last_name := some "Name", email := some "old@x.com", password_hash := some "HASH",
    ldap_dn := "dn-old" }

/-- A store holding just `storedUser`. -/
def storeWithUser : DbState :=
  { emptyDb with users := [storedUser], nextUserId := 1 }

/-- An incoming directory record for `storedUser`'s key with a mix of
present and absent attributes. -/
def incomingUser : DbUserData :=
  { uid := "user1", givenName := "New", sn := "", mail := "new@x.com",
    password_hash := none, dn := "dn-new" }

end LdapPg

/-! # Theorems -/

namespace LdapPg

/-- The fallback branch of `extractHashFromLdap` returns the input itself,
so the function never signals absence. -/
theorem extractHashFromLdap_ne_none (p : String) : extractHashFromLdap p ≠ none := by
  unfold extractHashFromLdap
  cases matchTag "{SSHA}" p <;> cases matchTag "{SHA}" p <;>
    cases matchTag "{MD5}" p <;> cases matchTag "{CRYPT}" p <;>
    cases matchTag "{CLEARTEXT}" p <;> simp [Option.orElse]

/-- C2 (counterexample): the input `"plaintext"` is non-empty and begins
with none of the recognized tag markers (`isLdapHash` rejects it), yet
`convertLdapPassword` still produces a converted credential for it, because
`extractHashFromLdap` falls back to returning the raw input.  This refutes
the claim that every unrecognized input yields absence. -/
theorem c2_unrecognized_still_converted :
    isLdapHash "plaintext" = false ∧ "plaintext" ≠ "" ∧
    (convertLdapPassword gSeq 0 "plaintext").1 = some "BCRYPT0" :=
  ⟨by decide, by decide, by decide⟩

/-- C2 (amended): `convertLdapPassword` returns absence exactly for the
empty credential; every non-empty input, whether it carries a recognized
tag or not, produces a converted credential. -/
theorem c2_convert_none_iff_empty (g : Nat → String) (ctr : Nat) (p : String) :
    (convertLdapPassword g ctr p).1 = none ↔ p = "" := by
  constructor
  · intro h
    by_contra hp
    unfold convertLdapPassword at h
    rw [if_neg hp] at h
    cases hx : extractHashFromLdap p with
    | none => exact extractHashFromLdap_ne_none p hx
    | some v => rw [hx] at h; simp at h
  · intro h
    simp [convertLdapPassword, h]

/-- C4: upserting onto an already-stored user overwrites each of given
name, family name, email and target credential exactly when the incoming
value is non-empty (for the credential: non-null and non-empty), and keeps
the stored value when the incoming value is empty or absent; the source
path `ldap_dn` is overwritten unconditionally. -/
theorem c4_merge_preserve_existing (st : DbState) (d : DbUserData) (clientId : Nat)
    (u : UserRow) (h : findUser st.users clientId d.uid = some u) :
    ∃ st', upsertUser true st d clientId = .ok
      ({ u with
         first_name := if d.givenName = "" then u.first_name else some d.givenName,
         last_name := if d.sn = "" then u.last_name else some d.sn,
         email := if d.mail = "" then u.email else some d.mail,
         password_hash := match d.password_hash with
           | none => u.password_hash
           | some s => if s = "" then u.password_hash else some s,
         ldap_dn := d.dn }, st') := by
  exact ⟨_, by
    simp only [upsertUser, Bool.not_true, Bool.false_eq_true, if_false, h, jsOrStr, jsOrOpt]
    rfl⟩

/-- C4 (witness): a concrete update where the new given name and email
overwrite, while the empty family name and the absent credential leave the
stored values in place. -/
theorem c4_merge_preserve_existing_witness :
    ∃ st', upsertUser true storeWithUser incomingUser 0 = .ok
      ({ storedUser with
         first_name := if incomingUser.givenName = "" then storedUser.first_name
           else some incomingUser.givenName,
         last_name := if incomingUser.sn = "" then storedUser.last_name
           else some incomingUser.sn,
         email := if incomingUser.mail = "" then storedUser.email
           else some incomingUser.mail,
         password_hash := match incomingUser.password_hash with
           | none => storedUser.password_hash
           | some s => if s = "" then storedUser.password_hash else some s,
         ldap_dn := incomingUser.dn }, st') :=
  c4_merge_preserve_existing storeWithUser incomingUser 0 storedUser (by decide)

/-- C9 (counterexample): after a run that completes normally, the store
connection opened by the `DatabaseService` constructor is still open —
`migrate`'s `finally` block only releases the LDAP connection, so the
store connection is not released on this (or any) exit path of
`migrate()`. -/
theorem c9_store_connection_not_released :
    runStart.dbConnected = true ∧
    (migrate allOk gSeq 100 false dirOne runStart).2.dbConnected = true ∧
    (migrate allOk gSeq 100 false dirOne runStart).1 =
      .ok { success := true, stats := ⟨1, 1, 1, 1, 0, 0, []⟩, dryRun := false } :=
  ⟨by decide, by decide, by rfl⟩

/-- C9 (amended): on every exit path of `migrate()` — normal return or
thrown error — the directory connection ends up released (the `finally`
block runs unconditionally), while the store connection is never touched
by `migrate`; it is only closed by `DatabaseService.onModuleDestroy`,
which `migrate` does not invoke. -/
theorem c9_ldap_released_db_untouched (o : Oracle) (g : Nat → String) (bs : Nat)
    (dr : Bool) (d : List LdapClientEntry) (rs : RunState) :
    (migrate o g bs dr d rs).2.ldapConnected = false ∧
    (migrate o g bs dr d rs).2.dbConnected = rs.dbConnected := by
  unfold migrate disconnectLdap
  cases o.connectOk <;> cases o.initTablesOk <;> cases o.searchClientsOk <;>
    cases hL : rs.ldapConnected <;> simp [hL]

/-- C1 (code-bug evidence): with dry-run enabled and everything healthy,
the run still performs both Store Writer mutations — the client and user
tables each grow from 0 to 1 rows — and the persisted run summary even
records `dry_run = false` (because `logMigrationRun` reads `stats.dryRun`,
a field `MigrationStats` does not have), while only the in-memory result
carries `dryRun = true`.  The README promises dry-run makes "no database
changes"; neither `processClient` nor `processUser` nor the
`DatabaseService` consults the flag. -/
theorem c1_dry_run_still_mutates :
    runStart.db.clients.length = 0 ∧ runStart.db.users.length = 0 ∧
    (migrate allOk gSeq 100 true dirOne runStart).2.db.clients.length = 1 ∧
    (migrate allOk gSeq 100 true dirOne runStart).2.db.users.length = 1 ∧
    (migrate allOk gSeq 100 true dirOne runStart).2.db.migrationLog =
      [{ total_clients := 1, total_users := 1, successful_clients := 1,
         successful_users := 1, failed_clients := 0, failed_users := 0,
         error_log := none, dry_run := false }] ∧
    (migrate allOk gSeq 100 true dirOne runStart).1 =
      .ok { success := true, stats := ⟨1, 1, 1, 1, 0, 0, []⟩, dryRun := true } :=
  ⟨by decide, by decide, by decide, by decide, by decide, by rfl⟩

/-- Concatenating the slices of the batch loop recovers the user list. -/
theorem chunkListAux_flatten (bs : Nat) :
    ∀ (fuel : Nat) (l : List α), l.length ≤ fuel → (chunkListAux fuel bs l).flatten = l := by
  intro fuel
  induction fuel with
  | zero =>
      intro l hl
      cases l with
      | nil => rfl
      | cons a l' => simp at hl
  | succ fuel ih =>
      intro l hl
      cases l with
      | nil => rfl
      | cons a l' =>
          simp only [List.length_cons] at hl
          simp only [chunkListAux, List.flatten]
          rw [ih (l'.drop (bs - 1)) (by simp only [List.length_drop]; omega)]
          simp [List.take_append_drop]

/-- The batches of `chunkList` concatenate back to the original list. -/
theorem chunkList_flatten (bs : Nat) (l : List α) : (chunkList bs l).flatten = l :=
  chunkListAux_flatten bs l.length l le_rfl

/-- Processing users batch-by-batch is the fold of `processUser` over the
whole user list (batches are contiguous slices handled in order). -/
theorem processUsers_eq_foldl (o : Oracle) (g : Nat → String) (bs : Nat) (clientId : Nat)
    (ps : PState) (users : List UserData) :
    processUsers o g bs clientId ps users = users.foldl (processUser o g clientId) ps := by
  unfold processUsers
  conv_rhs => rw [← chunkList_flatten bs users]
  rw [List.foldl_flatten]

/-- Field-level description of one `processUser` step: the outcome of a
user is decided by that user's own upsert alone, the counters move by
exactly one, a failure appends exactly one message, and the client table
and run log are untouched. -/
theorem processUser_fields (o : Oracle) (g : Nat → String) (clientId : Nat)
    (ps : PState) (u : UserData) :
    ((processUser o g clientId ps u).stats.successfulUsers =
      if o.userUpsertOk clientId u.uid then ps.stats.successfulUsers + 1
      else ps.stats.successfulUsers) ∧
    ((processUser o g clientId ps u).stats.failedUsers =
      if o.userUpsertOk clientId u.uid then ps.stats.failedUsers
      else ps.stats.failedUsers + 1) ∧
    ((processUser o g clientId ps u).stats.errors =
      if o.userUpsertOk clientId u.uid then ps.stats.errors
      else ps.stats.errors ++ [userFailMsg u.uid]) ∧
    ((processUser o g clientId ps u).trace =
      ps.trace ++ [Event.userUpsertCall clientId u.uid]) ∧
    ((processUser o g clientId ps u).stats.totalClients = ps.stats.totalClients) ∧
    ((processUser o g clientId ps u).stats.totalUsers = ps.stats.totalUsers) ∧
    ((processUser o g clientId ps u).stats.successfulClients = ps.stats.successfulClients) ∧
    ((processUser o g clientId ps u).stats.failedClients = ps.stats.failedClients) ∧
    ((processUser o g clientId ps u).db.clients = ps.db.clients) ∧
    ((processUser o g clientId ps u).db.migrationLog = ps.db.migrationLog) ∧
    ((processUser o g clientId ps u).db.nextClientId = ps.db.nextClientId) := by
  cases h : o.userUpsertOk clientId u.uid with
  | false =>
      simp [processUser, upsertUser, h, userFailMsg]
  | true =>
      cases hf : findUser ps.db.users clientId u.uid with
      | none => simp [processUser, upsertUser, h, hf]
      | some urow => simp [processUser, upsertUser, h, hf]

/-- Aggregate description of one whole user batch loop; proved by folding
`processUser_fields` over the list. -/
theorem processUsers_counts (o : Oracle) (g : Nat → String) (bs : Nat) (clientId : Nat) :
    ∀ (users : List UserData) (ps : PState),
    ((processUsers o g bs clientId ps users).stats.successfulUsers =
      ps.stats.successfulUsers +
        (users.filter (fun u => o.userUpsertOk clientId u.uid)).length) ∧
    ((processUsers o g bs clientId ps users).stats.failedUsers =
      ps.stats.failedUsers +
        (users.filter (fun u => !(o.userUpsertOk clientId u.uid))).length) ∧
    ((processUsers o g bs clientId ps users).stats.errors =
      ps.stats.errors ++
        (users.filter (fun u => !(o.userUpsertOk clientId u.uid))).map
          (fun u => userFailMsg u.uid)) ∧
    ((processUsers o g bs clientId ps users).trace =
      ps.trace ++ users.map (fun u => Event.userUpsertCall clientId u.uid)) ∧
    ((processUsers o g bs clientId ps users).stats.totalClients = ps.stats.totalClients) ∧
    ((processUsers o g bs clientId ps users).stats.totalUsers = ps.stats.totalUsers) ∧
    ((processUsers o g bs clientId ps users).stats.successfulClients =
      ps.stats.successfulClients) ∧
    ((processUsers o g bs clientId ps users).stats.failedClients = ps.stats.failedClients) ∧
    ((processUsers o g bs clientId ps users).db.clients = ps.db.clients) ∧
    ((processUsers o g bs clientId ps users).db.migrationLog = ps.db.migrationLog) ∧
    ((processUsers o g bs clientId ps users).db.nextClientId = ps.db.nextClientId) := by
  intro users
  induction users with
  | nil => intro ps; simp [processUsers_eq_foldl]
  | cons u us ih =>
      intro ps
      obtain ⟨h1, h2, h3, h4, h5, h6, h7, h8, h9, h10, h11⟩ :=
        processUser_fields o g clientId ps u
      obtain ⟨g1, g2, g3, g4, g5, g6, g7, g8, g9, g10, g11⟩ :=
        ih (processUser o g clientId ps u)
      have hstep : processUsers o g bs clientId ps (u :: us) =
          processUsers o g bs clientId (processUser o g clientId ps u) us := by
        rw [processUsers_eq_foldl, processUsers_eq_foldl, List.foldl_cons]
      rw [hstep]
      cases h : o.userUpsertOk clientId u.uid <;>
        refine ⟨?_, ?_, ?_, ?_, ?_, ?_, ?_, ?_, ?_, ?_, ?_⟩ <;>
        simp [g1, g2, g3, g4, g5, g6, g7, g8, g9, g10, g11,
          h1, h2, h3, h4, h5, h6, h7, h8, h9, h10, h11, h,
          List.filter_cons, List.append_assoc] <;>
        omega

/-- C6: within the batches of one client, each user's outcome is decided by
that user's own upsert alone.  After the whole batch loop, the succeeded
count grows by exactly the users whose upsert succeeds, the failed count by
exactly the users whose upsert fails, each failing user contributes exactly
one error message (in order), and every user of every batch was attempted
exactly once — so one user's failure never changes a sibling's outcome,
and the client-level counters are untouched by the user loop.  Batches are
contiguous slices processed strictly one after the other
(`processUsers` folds over `chunkList` and `await Promise.allSettled`
settles a whole batch before the loop continues). -/
theorem c6_batch_failure_isolation (o : Oracle) (g : Nat → String) (bs : Nat)
    (clientId : Nat) (ps : PState) (users : List UserData) :
    ((processUsers o g bs clientId ps users).stats.successfulUsers =
      ps.stats.successfulUsers +
        (users.filter (fun u => o.userUpsertOk clientId u.uid)).length) ∧
    ((processUsers o g bs clientId ps users).stats.failedUsers =
      ps.stats.failedUsers +
        (users.filter (fun u => !(o.userUpsertOk clientId u.uid))).length) ∧
    ((processUsers o g bs clientId ps users).stats.errors =
      ps.stats.errors ++
        (users.filter (fun u => !(o.userUpsertOk clientId u.uid))).map
          (fun u => userFailMsg u.uid)) ∧
    ((processUsers o g bs clientId ps users).trace =
      ps.trace ++ users.map (fun u => Event.userUpsertCall clientId u.uid)) ∧
    ((processUsers o g bs clientId ps users).stats.successfulClients =
      ps.stats.successfulClients) ∧
    ((processUsers o g bs clientId ps users).stats.failedClients =
      ps.stats.failedClients) := by
  obtain ⟨g1, g2, g3, g4, g5, g6, g7, g8, g9, g10, g11⟩ :=
    processUsers_counts o g bs clientId users ps
  exact ⟨g1, g2, g3, g4, g7, g8⟩

/-- C5: when a client's own upsert fails, `processClient` throws before any
user work — the store and the statistics are exactly as before, the trace
records only the failed client-upsert attempt and no user-upsert call —
and the client loop counts one failed client, appends exactly one error
message, and continues with the remaining clients. -/
theorem c5_client_failure_short_circuit (o : Oracle) (g : Nat → String) (bs : Nat)
    (ps : PState) (c : LdapClientEntry) (rest : List LdapClientEntry)
    (h : o.clientUpsertOk c.ou = false) :
    processClient o g bs ps c =
      .error ("Client upsert failed for " ++ c.ou ++ ": DB_ERROR",
        { ps with trace := ps.trace ++ [Event.clientUpsertCall c.ou] }) ∧
    migrateLoop o g bs ps (c :: rest) =
      migrateLoop o g bs
        { ps with
          trace := ps.trace ++ [Event.clientUpsertCall c.ou],
          stats := { ps.stats with
            failedClients := ps.stats.failedClients + 1,
            errors := ps.stats.errors ++ [clientFailMsg c.ou] } }
        rest := by
  have hpc : processClient o g bs ps c =
      .error ("Client upsert failed for " ++ c.ou ++ ": DB_ERROR",
        { ps with trace := ps.trace ++ [Event.clientUpsertCall c.ou] }) := by
    simp [processClient, upsertClient, h]
  refine ⟨hpc, ?_⟩
  unfold migrateLoop
  rw [List.foldl_cons, hpc]
  rfl

/-- C5 (witness): the failing-client step at a concrete state. -/
theorem c5_client_failure_short_circuit_witness :
    processClient oracleClientFail gSeq 100 psStart entryA =
      .error ("Client upsert failed for " ++ entryA.ou ++ ": DB_ERROR",
        { psStart with trace := psStart.trace ++ [Event.clientUpsertCall entryA.ou] }) ∧
    migrateLoop oracleClientFail gSeq 100 psStart (entryA :: [entryB]) =
      migrateLoop oracleClientFail gSeq 100
        { psStart with
          trace := psStart.trace ++ [Event.clientUpsertCall entryA.ou],
          stats := { psStart.stats with
            failedClients := psStart.stats.failedClients + 1,
            errors := psStart.stats.errors ++ [clientFailMsg entryA.ou] } }
        [entryB] :=
  c5_client_failure_short_circuit oracleClientFail gSeq 100 psStart entryA [entryB]
    (by decide)

/-- Releasing the directory connection does not touch the store. -/
theorem disconnectLdap_db (rs : RunState) : (disconnectLdap rs).db = rs.db := by
  unfold disconnectLdap
  cases h : rs.ldapConnected <;> simp [h]

/-- A client upsert that the driver does not fail always succeeds, touching
only the client table and its identifier source. -/
theorem upsertClient_ok_exists (st : DbState) (ou : String) (name : Option String) :
    ∃ row db', upsertClient true st ou name = .ok (row, db') ∧
      db'.users = st.users ∧ db'.migrationLog = st.migrationLog ∧
      db'.nextUserId = st.nextUserId := by
  unfold upsertClient
  simp only [Bool.not_true, Bool.false_eq_true, if_false]
  cases hf : findClient st.clients ou with
  | none => exact ⟨_, _, rfl, rfl, rfl, rfl⟩
  | some crow => exact ⟨_, _, rfl, rfl, rfl, rfl⟩

/-- Conservation facts for one `processClient` call: on success the client
counters are untouched and the user counters absorb exactly the client's
enumerated users; on a thrown error the statistics are exactly as before.
The run log is never written from inside client processing. -/
theorem processClient_conservation (o : Oracle) (g : Nat → String) (bs : Nat)
    (ps : PState) (c : LdapClientEntry) :
    (∀ ps', processClient o g bs ps c = .ok ps' →
      ps'.stats.successfulClients = ps.stats.successfulClients ∧
      ps'.stats.failedClients = ps.stats.failedClients ∧
      ps'.stats.totalClients = ps.stats.totalClients ∧
      ps'.stats.successfulUsers + ps'.stats.failedUsers + ps.stats.totalUsers =
        ps.stats.successfulUsers + ps.stats.failedUsers + ps'.stats.totalUsers ∧
      ps'.stats.errors.length + ps.stats.failedUsers =
        ps.stats.errors.length + ps'.stats.failedUsers ∧
      ps'.db.migrationLog = ps.db.migrationLog) ∧
    (∀ msg ps', processClient o g bs ps c = .error (msg, ps') →
      ps'.stats = ps.stats ∧ ps'.db.migrationLog = ps.db.migrationLog) := by
  cases hok : o.clientUpsertOk c.ou with
  | false =>
      constructor
      · intro ps' h
        simp [processClient, upsertClient, hok] at h
      · intro msg ps' h
        simp [processClient, upsertClient, hok] at h
        exact ⟨h.2 ▸ rfl, h.2 ▸ rfl⟩
  | true =>
      obtain ⟨row, db', hup, hupUsers, hlog, hupNext⟩ :=
        upsertClient_ok_exists ps.db c.ou none
      cases hs : o.searchUsersOk c.ou with
      | false =>
          constructor
          · intro ps' h
            simp [processClient, hok, hup, hs] at h
          · intro msg ps' h
            simp [processClient, hok, hup, hs] at h
            refine ⟨h.2 ▸ rfl, h.2 ▸ ?_⟩
            exact hlog
      | true =>
          constructor
          · intro ps' h
            have hps' : ps' = processUsers o g bs row.id
                { db := db', ctr := ps.ctr,
                  trace := ps.trace ++ [Event.clientUpsertCall c.ou],
                  stats := { ps.stats with totalUsers := ps.stats.totalUsers +
                    (c.users.filter (fun u => u.uid != "")).length } }
                (c.users.filter (fun u => u.uid != "")) := by
              simp [processClient, hok, hup, hs] at h
              exact h.symm
            obtain ⟨g1, g2, g3, g4, g5, g6, g7, g8, g9, g10, g11⟩ :=
              processUsers_counts o g bs row.id (c.users.filter (fun u => u.uid != ""))
                { db := db', ctr := ps.ctr,
                  trace := ps.trace ++ [Event.clientUpsertCall c.ou],
                  stats := { ps.stats with totalUsers := ps.stats.totalUsers +
                    (c.users.filter (fun u => u.uid != "")).length } }
            rw [hps']
            have hpart := List.length_eq_length_filter_add
              (l := c.users.filter (fun u => u.uid != ""))
              (fun u => o.userUpsertOk row.id u.uid)
            refine ⟨g7, g8, g5, ?_, ?_, by rw [g10]; exact hlog⟩
            · simp only [g1, g2, g6]
              simp only at hpart
              omega
            · simp only [g3, g2, List.length_append, List.length_map]
              simp only at hpart
              omega
          · intro msg ps' h
            simp [processClient, hok, hup, hs] at h

/-- Conservation over the whole client loop: every enumerated client lands
in exactly one of the two client counters, the user counters absorb
exactly the enumerated users, each failure contributes exactly one error
message, and the loop itself never writes the run log. -/
theorem migrateLoop_invariant (o : Oracle) (g : Nat → String) (bs : Nat) :
    ∀ (cs : List LdapClientEntry) (ps : PState),
    ((migrateLoop o g bs ps cs).stats.successfulClients +
        (migrateLoop o g bs ps cs).stats.failedClients =
      ps.stats.successfulClients + ps.stats.failedClients + cs.length) ∧
    ((migrateLoop o g bs ps cs).stats.successfulUsers +
        (migrateLoop o g bs ps cs).stats.failedUsers + ps.stats.totalUsers =
      ps.stats.successfulUsers + ps.stats.failedUsers +
        (migrateLoop o g bs ps cs).stats.totalUsers) ∧
    ((migrateLoop o g bs ps cs).stats.errors.length +
        ps.stats.failedClients + ps.stats.failedUsers =
      ps.stats.errors.length + (migrateLoop o g bs ps cs).stats.failedClients +
        (migrateLoop o g bs ps cs).stats.failedUsers) ∧
    ((migrateLoop o g bs ps cs).stats.totalClients = ps.stats.totalClients) ∧
    ((migrateLoop o g bs ps cs).db.migrationLog = ps.db.migrationLog) := by
  intro cs
  induction cs with
  | nil => intro ps; simp [migrateLoop]
  | cons c rest ih =>
      intro ps
      obtain ⟨hokC, herrC⟩ := processClient_conservation o g bs ps c
      cases hpc : processClient o g bs ps c with
      | ok ps' =>
          obtain ⟨k1, k2, k3, k4, k5, k6⟩ := hokC ps' hpc
          have hL : migrateLoop o g bs ps (c :: rest) =
              migrateLoop o g bs
                { ps' with stats := { ps'.stats with
                    successfulClients := ps'.stats.successfulClients + 1 } } rest := by
            unfold migrateLoop
            rw [List.foldl_cons, hpc]
          obtain ⟨i1, i2, i3, i4, i5⟩ := ih
            { ps' with stats := { ps'.stats with
                successfulClients := ps'.stats.successfulClients + 1 } }
          rw [hL]
          dsimp only at i1 i2 i3 i4 i5
          simp only [List.length_cons]
          refine ⟨by omega, by omega, by omega, by omega, ?_⟩
          rw [i5, k6]
      | error e =>
          obtain ⟨msg, ps'⟩ := e
          obtain ⟨k1, k2⟩ := herrC msg ps' hpc
          have hL : migrateLoop o g bs ps (c :: rest) =
              migrateLoop o g bs
                { ps' with stats := { ps'.stats with
                    failedClients := ps'.stats.failedClients + 1,
                    errors := ps'.stats.errors ++ ["Client " ++ c.ou ++ ": " ++ msg] } }
                rest := by
            unfold migrateLoop
            rw [List.foldl_cons, hpc]
          obtain ⟨i1, i2, i3, i4, i5⟩ := ih
            { ps' with stats := { ps'.stats with
                failedClients := ps'.stats.failedClients + 1,
                errors := ps'.stats.errors ++ ["Client " ++ c.ou ++ ": " ++ msg] } }
          rw [hL, k1]
          dsimp only at i1 i2 i3 i4 i5
          rw [k1] at i1 i2 i3 i4 i5
          simp only [List.length_append, List.length_singleton] at i3
          simp only [List.length_cons]
          refine ⟨by omega, by omega, by omega, by omega, ?_⟩
          rw [i5, k2]

/-- On a run whose connection and enumeration steps succeed, `migrate`
returns normally with the loop's statistics and appends the run summary
through `logMigrationRun`. -/
theorem migrate_normal_eq (o : Oracle) (g : Nat → String) (bs : Nat) (dr : Bool)
    (d : List LdapClientEntry) (rs : RunState)
    (h1 : o.connectOk = true) (h2 : o.initTablesOk = true)
    (h3 : o.searchClientsOk = true) :
    migrate o g bs dr d rs =
      (.ok
        { success := ((loopState o g bs d rs).stats.failedClients == 0 &&
            (loopState o g bs d rs).stats.failedUsers == 0),
          stats := (loopState o g bs d rs).stats, dryRun := dr },
       disconnectLdap
        { rs with
          ldapConnected := true,
          db := logMigrationRun o.logOk (loopState o g bs d rs).db
            (loopState o g bs d rs).stats,
          hashCtr := (loopState o g bs d rs).ctr,
          trace := if o.logOk then (loopState o g bs d rs).trace ++ [Event.logInsert]
            else (loopState o g bs d rs).trace }) := by
  unfold migrate loopState
  rw [h1, h2, h3]
  rfl

/-- C7: whenever `migrate()` completes and returns a result, its `success`
flag is `true` exactly when both the failed-client count and the
failed-user count are zero. -/
theorem c7_success_iff_no_failures (o : Oracle) (g : Nat → String) (bs : Nat)
    (dr : Bool) (d : List LdapClientEntry) (rs : RunState) (r : MigrationResult)
    (h : (migrate o g bs dr d rs).1 = .ok r) :
    r.success = true ↔ (r.stats.failedClients = 0 ∧ r.stats.failedUsers = 0) := by
  cases h1 : o.connectOk with
  | false => rw [migrate] at h; rw [h1] at h; simp at h
  | true =>
    cases h2 : o.initTablesOk with
    | false => rw [migrate] at h; rw [h1, h2] at h; simp at h
    | true =>
      cases h3 : o.searchClientsOk with
      | false => rw [migrate] at h; rw [h1, h2, h3] at h; simp at h
      | true =>
        rw [migrate_normal_eq o g bs dr d rs h1 h2 h3] at h
        simp only [Except.ok.injEq] at h
        subst h
        simp [Bool.and_eq_true, beq_iff_eq]

/-- C7 (witness): the success flag of a fully healthy concrete run. -/
theorem c7_success_iff_no_failures_witness :
    ({ success := true, stats := ⟨1, 1, 1, 1, 0, 0, []⟩,
       dryRun := false } : MigrationResult).success = true ↔
    (({ success := true, stats := ⟨1, 1, 1, 1, 0, 0, []⟩,
        dryRun := false } : MigrationResult).stats.failedClients = 0 ∧
     ({ success := true, stats := ⟨1, 1, 1, 1, 0, 0, []⟩,
        dryRun := false } : MigrationResult).stats.failedUsers = 0) :=
  c7_success_iff_no_failures allOk gSeq 100 false dirOne runStart _ (by rfl)

/-- Conservation facts restated on the loop state of a normal run. -/
theorem loopState_conservation (o : Oracle) (g : Nat → String) (bs : Nat)
    (d : List LdapClientEntry) (rs : RunState) :
    ((loopState o g bs d rs).stats.totalClients =
      (loopState o g bs d rs).stats.successfulClients +
        (loopState o g bs d rs).stats.failedClients) ∧
    ((loopState o g bs d rs).stats.totalUsers =
      (loopState o g bs d rs).stats.successfulUsers +
        (loopState o g bs d rs).stats.failedUsers) ∧
    ((loopState o g bs d rs).stats.errors.length =
      (loopState o g bs d rs).stats.failedClients +
        (loopState o g bs d rs).stats.failedUsers) ∧
    ((loopState o g bs d rs).db.migrationLog = rs.db.migrationLog) := by
  obtain ⟨i1, i2, i3, i4, i5⟩ := migrateLoop_invariant o g bs (filterClients d)
    { db := rs.db, ctr := rs.hashCtr, trace := rs.trace,
      stats := { zeroStats with totalClients := (filterClients d).length } }
  unfold loopState
  dsimp only [zeroStats, List.length_nil] at i1 i2 i3 i4 i5 ⊢
  refine ⟨by omega, by omega, by omega, i5⟩

/-- C10: on every normal return of `migrate()`, the statistics are
conservative: the client totals split exactly into succeeded plus failed
clients, the user totals into succeeded plus failed users, and the error
collection holds exactly one message per failed client or user. -/
theorem c10_stats_conservation (o : Oracle) (g : Nat → String) (bs : Nat)
    (dr : Bool) (d : List LdapClientEntry) (rs : RunState) (r : MigrationResult)
    (h : (migrate o g bs dr d rs).1 = .ok r) :
    r.stats.totalClients = r.stats.successfulClients + r.stats.failedClients ∧
    r.stats.totalUsers = r.stats.successfulUsers + r.stats.failedUsers ∧
    r.stats.errors.length = r.stats.failedClients + r.stats.failedUsers := by
  cases h1 : o.connectOk with
  | false => rw [migrate] at h; rw [h1] at h; simp at h
  | true =>
    cases h2 : o.initTablesOk with
    | false => rw [migrate] at h; rw [h1, h2] at h; simp at h
    | true =>
      cases h3 : o.searchClientsOk with
      | false => rw [migrate] at h; rw [h1, h2, h3] at h; simp at h
      | true =>
        rw [migrate_normal_eq o g bs dr d rs h1 h2 h3] at h
        simp only [Except.ok.injEq] at h
        subst h
        obtain ⟨j1, j2, j3, j4⟩ := loopState_conservation o g bs d rs
        exact ⟨j1, j2, j3⟩

/-- C10 (witness): conservation on a healthy concrete run. -/
theorem c10_stats_conservation_witness :
    ({ success := true, stats := ⟨1, 1, 1, 1, 0, 0, []⟩,
       dryRun := false } : MigrationResult).stats.totalClients =
      ({ success := true, stats := ⟨1, 1, 1, 1, 0, 0, []⟩,
         dryRun := false } : MigrationResult).stats.successfulClients +
      ({ success := true, stats := ⟨1, 1, 1, 1, 0, 0, []⟩,
         dryRun := false } : MigrationResult).stats.failedClients ∧
    ({ success := true, stats := ⟨1, 1, 1, 1, 0, 0, []⟩,
       dryRun := false } : MigrationResult).stats.totalUsers =
      ({ success := true, stats := ⟨1, 1, 1, 1, 0, 0, []⟩,
         dryRun := false } : MigrationResult).stats.successfulUsers +
      ({ success := true, stats := ⟨1, 1, 1, 1, 0, 0, []⟩,
         dryRun := false } : MigrationResult).stats.failedUsers ∧
    ({ success := true, stats := ⟨1, 1, 1, 1, 0, 0, []⟩,
       dryRun := false } : MigrationResult).stats.errors.length =
      ({ success := true, stats := ⟨1, 1, 1, 1, 0, 0, []⟩,
         dryRun := false } : MigrationResult).stats.failedClients +
      ({ success := true, stats := ⟨1, 1, 1, 1, 0, 0, []⟩,
         dryRun := false } : MigrationResult).stats.failedUsers :=
  c10_stats_conservation allOk gSeq 100 false dirOne runStart _ (by rfl)

/-- C8 (counterexample): two runs refute the claim that a successful
connection step guarantees a persisted `RunSummary`.  First, a run whose
connection and table initialisation succeed but whose client enumeration
throws propagates the error and writes no summary row.  Second, a run that
completes normally but whose summary insert itself fails (swallowed by
`logMigrationRun`) also ends with no summary row while still returning a
result. -/
theorem c8_no_summary_counterexample :
    (oracleSearchFail.connectOk = true ∧ oracleSearchFail.initTablesOk = true ∧
     (migrate oracleSearchFail gSeq 100 false dirOne runStart).1 =
       .error "LDAP client search failed: LDAP_ERROR" ∧
     (migrate oracleSearchFail gSeq 100 false dirOne runStart).2.db.migrationLog = []) ∧
    ((migrate oracleLogFail gSeq 100 false dirOne runStart).1 =
       .ok { success := true, stats := ⟨1, 1, 1, 1, 0, 0, []⟩, dryRun := false } ∧
     (migrate oracleLogFail gSeq 100 false dirOne runStart).2.db.migrationLog = []) :=
  ⟨⟨rfl, rfl, by rfl, by decide⟩, ⟨by rfl, by decide⟩⟩

/-- C8 (amended): when the connection step, the client enumeration and the
summary insert all succeed, `migrate` returns normally having appended
exactly one `RunSummary` row — with zero failures or with partial failures
alike; when the connection step (LDAP bind or table initialisation) fails,
no summary is written and the caller receives the connection error.  (The
original claim is refuted when enumeration or the summary insert fails,
see the counterexample.) -/
theorem c8_summary_persistence (o : Oracle) (g : Nat → String) (bs : Nat)
    (dr : Bool) (d : List LdapClientEntry) (rs : RunState) :
    (o.connectOk = true → o.initTablesOk = true → o.searchClientsOk = true →
     o.logOk = true →
      ((migrate o g bs dr d rs).2.db.migrationLog.length =
        rs.db.migrationLog.length + 1 ∧
       ∃ r, (migrate o g bs dr d rs).1 = .ok r)) ∧
    (o.connectOk = false →
      ((migrate o g bs dr d rs).2.db.migrationLog = rs.db.migrationLog ∧
       (migrate o g bs dr d rs).1 = .error "LDAP connection failed: LDAP_ERROR")) ∧
    (o.connectOk = true → o.initTablesOk = false →
      ((migrate o g bs dr d rs).2.db.migrationLog = rs.db.migrationLog ∧
       (migrate o g bs dr d rs).1 = .error "Table initialization failed: DB_ERROR")) := by
  refine ⟨?_, ?_, ?_⟩
  · intro h1 h2 h3 h4
    rw [migrate_normal_eq o g bs dr d rs h1 h2 h3]
    obtain ⟨_, _, _, j4⟩ := loopState_conservation o g bs d rs
    constructor
    · rw [disconnectLdap_db]
      dsimp only
      rw [h4]
      unfold logMigrationRun
      simp [j4]
    · exact ⟨_, rfl⟩
  · intro h1
    rw [migrate]
    rw [h1]
    simp [disconnectLdap_db]
  · intro h1 h2
    rw [migrate]
    rw [h1, h2]
    simp [disconnectLdap_db]

/-- C8 (witness): the amended statement exercised on a healthy run and on
a run whose LDAP bind fails. -/
theorem c8_summary_persistence_witness :
    ((migrate allOk gSeq 100 false dirOne runStart).2.db.migrationLog.length =
      runStart.db.migrationLog.length + 1 ∧
     ∃ r, (migrate allOk gSeq 100 false dirOne runStart).1 = .ok r) ∧
    ((migrate oracleConnectFail gSeq 100 false dirOne runStart).2.db.migrationLog =
      runStart.db.migrationLog ∧
     (migrate oracleConnectFail gSeq 100 false dirOne runStart).1 =
       .error "LDAP connection failed: LDAP_ERROR") :=
  ⟨(c8_summary_persistence allOk gSeq 100 false dirOne runStart).1 rfl rfl rfl rfl,
   (c8_summary_persistence oracleConnectFail gSeq 100 false dirOne runStart).2.1 rfl⟩

/-! Support lemmas for the idempotence analysis (C3). -/

/-- Merging a value onto itself is the identity. -/
theorem jsOrStr_self (s : String) : jsOrStr s (some s) = some s := by
  unfold jsOrStr
  by_cases h : s = "" <;> simp [h]

/-- The merge-preserve-existing update is idempotent per attribute. -/
theorem jsOrStr_idem (s : String) (x : Option String) :
    jsOrStr s (jsOrStr s x) = jsOrStr s x := by
  unfold jsOrStr
  by_cases h : s = "" <;> simp [h]

/-- Every user row is hash-equivalent to itself. -/
theorem sameExceptHash_refl (a : UserRow) : sameExceptHash a a :=
  ⟨rfl, rfl, rfl, rfl, rfl, rfl, rfl⟩

/-- Hash-equivalence of user tables is reflexive. -/
theorem forall2_sameExceptHash_refl (l : List UserRow) :
    List.Forall₂ sameExceptHash l l := by
  induction l with
  | nil => exact List.Forall₂.nil
  | cons a t ih => exact List.Forall₂.cons (sameExceptHash_refl a) ih

/-- Hash-equivalent user tables carry the same identifier sequence. -/
theorem forall2_map_id_eq {l1 l2 : List UserRow}
    (h : List.Forall₂ sameExceptHash l1 l2) :
    l1.map (fun r => r.id) = l2.map (fun r => r.id) := by
  induction h with
  | nil => rfl
  | cons hab _ ih => simp only [List.map_cons, ih, hab.1]

/-- The row returned by `findUser` carries the searched key. -/
theorem findUser_keys {l : List UserRow} {clientId : Nat} {un : String} {r : UserRow}
    (h : findUser l clientId un = some r) :
    r.client_id = clientId ∧ r.username = un := by
  have hp := List.find?_some h
  simp only [Bool.and_eq_true, beq_iff_eq] at hp
  exact hp

/-- Saving a row never changes the identifier sequence of the table. -/
theorem saveUser_map_id (l : List UserRow) (u : UserRow) :
    (saveUser l u).map (fun r => r.id) = l.map (fun r => r.id) := by
  unfold saveUser
  rw [List.map_map]
  apply List.map_congr_left
  intro x _
  by_cases h : x.id == u.id
  · simp only [Function.comp_apply, h, if_true]
    have : x.id = u.id := by simpa using h
    simp [this]
  · have hne : x.id ≠ u.id := by simpa using h
    simp [Function.comp_apply, hne]

/-- Saving a row whose identifier is absent from the table is a no-op. -/
theorem saveUser_eq_of_no_id (l : List UserRow) (u : UserRow)
    (h : ∀ x ∈ l, x.id ≠ u.id) : saveUser l u = l := by
  unfold saveUser
  conv_rhs => rw [← List.map_id l]
  apply List.map_congr_left
  intro x hx
  have := h x hx
  simp [this]

/-- Unfolding equation of `saveUser` on a non-empty table. -/
theorem saveUser_cons (a : UserRow) (t : List UserRow) (u : UserRow) :
    saveUser (a :: t) u = (if (a.id == u.id) = true then u else a) :: saveUser t u := rfl

/-- After saving an updated row loaded under a key, looking the key up
again yields the updated row. -/
theorem findUser_saveUser_self {l : List UserRow} {clientId : Nat} {un : String}
    {u0 u' : UserRow}
    (hnd : (l.map (fun r => r.id)).Nodup)
    (hfind : findUser l clientId un = some u0)
    (hid : u'.id = u0.id) (hcid : u'.client_id = clientId) (hun : u'.username = un) :
    findUser (saveUser l u') clientId un = some u' := by
  induction l with
  | nil => simp [findUser] at hfind
  | cons a t ih =>
      simp only [List.map_cons, List.nodup_cons] at hnd
      obtain ⟨hna, hndt⟩ := hnd
      unfold findUser at hfind
      by_cases hp : (a.client_id == clientId && a.username == un) = true
      · rw [List.find?_cons_of_pos (p := fun u : UserRow => u.client_id == clientId &&
          u.username == un) _ hp] at hfind
        have ha : a = u0 := Option.some.inj hfind
        have hbeq : (a.id == u'.id) = true := by simp [ha, hid]
        rw [saveUser_cons, if_pos hbeq]
        unfold findUser
        exact List.find?_cons_of_pos _ (by simp [hcid, hun])
      · rw [List.find?_cons_of_neg (p := fun u : UserRow => u.client_id == clientId &&
          u.username == un) _ hp] at hfind
        have hmem := List.mem_of_find?_eq_some hfind
        have hane : a.id ≠ u'.id := by
          rw [hid]
          intro he
          have hmm : u0.id ∈ List.map (fun r => r.id) t := List.mem_map_of_mem _ hmem
          rw [← he] at hmm
          exact hna hmm
        rw [saveUser_cons, if_neg (by simpa using hane)]
        unfold findUser
        rw [List.find?_cons_of_neg (p := fun u : UserRow => u.client_id == clientId &&
          u.username == un) _ hp]
        exact ih hndt hfind

/-- Saving a row whose key differs from the searched key does not change
the lookup of the searched key, provided the saved row overwrites a row
that carried its own key (as every loaded-and-updated row does). -/
theorem findUser_saveUser_other {l : List UserRow} {clientId : Nat} {un : String}
    {u' : UserRow}
    (hnd : (l.map (fun r => r.id)).Nodup)
    (horig : ∃ x ∈ l, x.id = u'.id ∧ x.client_id = u'.client_id ∧
      x.username = u'.username)
    (hne : ¬(u'.client_id = clientId ∧ u'.username = un)) :
    findUser (saveUser l u') clientId un = findUser l clientId un := by
  induction l with
  | nil => rfl
  | cons a t ih =>
      simp only [List.map_cons, List.nodup_cons] at hnd
      obtain ⟨hna, hndt⟩ := hnd
      have hpu' : ¬ (u'.client_id == clientId && u'.username == un) = true := by
        simpa [Bool.and_eq_true, beq_iff_eq] using hne
      by_cases hida : (a.id == u'.id) = true
      · obtain ⟨x, hx, hxid, hxcid, hxun⟩ := horig
        have haid : a.id = u'.id := by simpa using hida
        have hxa : x = a := by
          rcases List.mem_cons.mp hx with h | h
          · exact h
          · exfalso
            have hmm : x.id ∈ List.map (fun r => r.id) t := List.mem_map_of_mem _ h
            rw [hxid, ← haid] at hmm
            exact hna hmm
        have hacid : a.client_id = u'.client_id := hxa ▸ hxcid
        have haun : a.username = u'.username := hxa ▸ hxun
        have hpa : ¬ (a.client_id == clientId && a.username == un) = true := by
          rw [hacid, haun]; exact hpu'
        rw [saveUser_cons, if_pos hida]
        unfold findUser
        rw [List.find?_cons_of_neg (p := fun u : UserRow => u.client_id == clientId &&
          u.username == un) _ hpu']
        rw [List.find?_cons_of_neg (p := fun u : UserRow => u.client_id == clientId &&
          u.username == un) _ hpa]
        have hnone : saveUser t u' = t := by
          apply saveUser_eq_of_no_id
          intro y hy he
          have hmm : y.id ∈ List.map (fun r => r.id) t := List.mem_map_of_mem _ hy
          rw [he, ← haid] at hmm
          exact hna hmm
        rw [hnone]
      · rw [saveUser_cons, if_neg hida]
        obtain ⟨x, hx, hxid, hxcid, hxun⟩ := horig
        have hxt : x ∈ t := by
          rcases List.mem_cons.mp hx with h | h
          · exfalso
            apply hida
            rw [h] at hxid
            simp [hxid]
          · exact h
        unfold findUser
        by_cases hpa : (a.client_id == clientId && a.username == un) = true
        · rw [List.find?_cons_of_pos (p := fun u : UserRow => u.client_id == clientId &&
            u.username == un) _ hpa]
          rw [List.find?_cons_of_pos (p := fun u : UserRow => u.client_id == clientId &&
            u.username == un) _ hpa]
        · rw [List.find?_cons_of_neg (p := fun u : UserRow => u.client_id == clientId &&
            u.username == un) _ hpa]
          rw [List.find?_cons_of_neg (p := fun u : UserRow => u.client_id == clientId &&
            u.username == un) _ hpa]
          exact ih hndt ⟨x, hxt, hxid, hxcid, hxun⟩

/-- The update a second run performs on an already-fixpoint user table
keeps the table hash-equivalent to the first run's table: the looked-up
row exists and rewriting it changes at most its password hash. -/
theorem second_run_upsert_forall2 {l1 : List UserRow} {clientId : Nat}
    (u : UserData) {urow : UserRow}
    (hfn : urow.first_name = jsOrStr u.givenName urow.first_name)
    (hln : urow.last_name = jsOrStr u.sn urow.last_name)
    (hem : urow.email = jsOrStr u.mail urow.email)
    (hdn : urow.ldap_dn = u.dn)
    (ph : Option String) :
    ∀ {l2 : List UserRow}, List.Forall₂ sameExceptHash l1 l2 →
    (l2.map (fun r => r.id)).Nodup →
    findUser l1 clientId u.uid = some urow →
    ∃ urow2, findUser l2 clientId u.uid = some urow2 ∧
      List.Forall₂ sameExceptHash l1
        (saveUser l2 { urow2 with
          first_name := jsOrStr u.givenName urow2.first_name,
          last_name := jsOrStr u.sn urow2.last_name,
          email := jsOrStr u.mail urow2.email,
          password_hash := jsOrOpt ph urow2.password_hash,
          ldap_dn := u.dn }) := by
  induction l1 with
  | nil =>
      intro l2 h hnd hfind1
      simp [findUser] at hfind1
  | cons a t1 ih =>
      intro l2 h hnd hfind1
      cases h with
      | cons hab htail =>
        rename_i b t2
        obtain ⟨hid, hcid, hun, hfn2, hln2, hem2, hdn2⟩ := hab
        simp only [List.map_cons, List.nodup_cons] at hnd
        obtain ⟨hnb, hndt⟩ := hnd
        unfold findUser at hfind1
        by_cases hp : (a.client_id == clientId && a.username == u.uid) = true
        · rw [List.find?_cons_of_pos (p := fun x : UserRow => x.client_id == clientId &&
            x.username == u.uid) _ hp] at hfind1
          have ha : a = urow := Option.some.inj hfind1
          have hpb : (b.client_id == clientId && b.username == u.uid) = true := by
            simp only [Bool.and_eq_true, beq_iff_eq] at hp ⊢
            exact ⟨hcid ▸ hp.1, hun ▸ hp.2⟩
          refine ⟨b, by unfold findUser; exact List.find?_cons_of_pos _ hpb, ?_⟩
          have hnone : saveUser t2 { b with
              first_name := jsOrStr u.givenName b.first_name,
              last_name := jsOrStr u.sn b.last_name,
              email := jsOrStr u.mail b.email,
              password_hash := jsOrOpt ph b.password_hash,
              ldap_dn := u.dn } = t2 := by
            apply saveUser_eq_of_no_id
            intro y hy he
            have hmm : y.id ∈ List.map (fun r => r.id) t2 := List.mem_map_of_mem _ hy
            rw [he] at hmm
            exact hnb hmm
          rw [saveUser_cons, if_pos (by simp), hnone]
          refine List.Forall₂.cons ⟨hid, hcid, hun, ?_, ?_, ?_, ?_⟩ htail
          · rw [show a.first_name = jsOrStr u.givenName a.first_name from ha ▸ hfn]
            rw [hfn2]
          · rw [show a.last_name = jsOrStr u.sn a.last_name from ha ▸ hln]
            rw [hln2]
          · rw [show a.email = jsOrStr u.mail a.email from ha ▸ hem]
            rw [hem2]
          · exact ha ▸ hdn
        · rw [List.find?_cons_of_neg (p := fun x : UserRow => x.client_id == clientId &&
            x.username == u.uid) _ hp] at hfind1
          have hpb : ¬ (b.client_id == clientId && b.username == u.uid) = true := by
            rw [← hcid, ← hun]; exact hp
          obtain ⟨urow2, hfind2, hforall⟩ := ih htail hndt hfind1
          refine ⟨urow2, ?_, ?_⟩
          · unfold findUser
            rw [List.find?_cons_of_neg (p := fun x : UserRow => x.client_id == clientId &&
              x.username == u.uid) _ hpb]
            exact hfind2
          · have hmem2 := List.mem_of_find?_eq_some hfind2
            have hbne : ¬ (b.id == urow2.id) = true := by
              intro he
              have he' : b.id = urow2.id := by simpa using he
              have hmm : urow2.id ∈ List.map (fun r => r.id) t2 :=
                List.mem_map_of_mem _ hmem2
              rw [← he'] at hmm
              exact hnb hmm
            rw [saveUser_cons, if_neg hbne]
            exact List.Forall₂.cons ⟨hid, hcid, hun, hfn2, hln2, hem2, hdn2⟩ hforall

/-- Saving back a loaded client row (with distinct row identifiers) leaves
the client table unchanged. -/
theorem saveClient_self {l : List ClientRow}
    (hnd : (l.map (fun r => r.id)).Nodup) {c : ClientRow} (hmem : c ∈ l) :
    saveClient l c = l := by
  unfold saveClient
  conv_rhs => rw [← List.map_id l]
  apply List.map_congr_left
  intro x hx
  by_cases h : x.id == c.id
  · have hid : x.id = c.id := by simpa using h
    have := List.inj_on_of_nodup_map hnd hx hmem hid
    simp [h, this]
  · simp [h]

/-- Upserting a client that is already stored, with no display name (as
`migrate` always does), returns the stored row and leaves the store
unchanged: the merge `name || client.name` keeps the name and the save
writes back an identical row. -/
theorem upsertClient_found (st : DbState) (ou : String) {crow : ClientRow}
    (hfind : findClient st.clients ou = some crow)
    (hnd : (st.clients.map (fun r => r.id)).Nodup) :
    upsertClient true st ou none = .ok (crow, st) := by
  unfold upsertClient
  rw [hfind]
  dsimp only
  have h1 : ({ crow with name := jsOrOpt none crow.name } : ClientRow) = crow := rfl
  rw [h1]
  rw [saveClient_self hnd (List.mem_of_find?_eq_some hfind)]
  rfl

/-- One second-run user step: if the first run's table already holds the
fixpoint row for this user, processing the user again keeps the store
hash-equivalent to the first run's store. -/
theorem processUser_second_run (g : Nat → String) (clientId : Nat) (u : UserData)
    {db1 : DbState} (S : PState)
    (hnd : (db1.users.map (fun r => r.id)).Nodup)
    (heq : DbEquiv db1 S.db)
    (hfact : UserKeyFact db1 clientId u) :
    DbEquiv db1 (processUser allOk g clientId S u).db := by
  obtain ⟨hcl, hus, hnc, hnu⟩ := heq
  obtain ⟨urow, hfind1, hfn, hln, hem, hdn⟩ := hfact
  have hnd2 : (S.db.users.map (fun r => r.id)).Nodup := by
    rw [← forall2_map_id_eq hus]; exact hnd
  obtain ⟨urow2, hfind2, hforall⟩ :=
    second_run_upsert_forall2 u hfn hln hem hdn
      ((convertLdapPassword g S.ctr u.userPassword).1) hus hnd2 hfind1
  unfold processUser upsertUser
  dsimp only [allOk]
  rw [hfind2]
  exact ⟨hcl, hforall, hnc, hnu⟩

/-- Second-run pass over a client's user list. -/
theorem processUsers_second_run (g : Nat → String) (bs : Nat) (clientId : Nat)
    {db1 : DbState}
    (hnd : (db1.users.map (fun r => r.id)).Nodup) :
    ∀ (users : List UserData) (S : PState),
    DbEquiv db1 S.db →
    (∀ u ∈ users, UserKeyFact db1 clientId u) →
    DbEquiv db1 (processUsers allOk g bs clientId S users).db := by
  intro users
  induction users with
  | nil =>
      intro S heq _
      rw [processUsers_eq_foldl]
      exact heq
  | cons u us ih =>
      intro S heq hfacts
      rw [processUsers_eq_foldl, List.foldl_cons, ← processUsers_eq_foldl]
      exact ih (processUser allOk g clientId S u)
        (processUser_second_run g clientId u S hnd heq (hfacts u (by simp)))
        (fun v hv => hfacts v (by simp [hv]))

/-- One second-run client step: with the client and all its users already
saturated in the first run's store, re-processing the client succeeds and
keeps the store hash-equivalent. -/
theorem processClient_second_run (g : Nat → String) (bs : Nat)
    {db1 : DbState} (S : PState) (c : LdapClientEntry)
    (hndC : (db1.clients.map (fun r => r.id)).Nodup)
    (hndU : (db1.users.map (fun r => r.id)).Nodup)
    (heq : DbEquiv db1 S.db)
    (hfact : ClientFact db1 c) :
    ∃ S', processClient allOk g bs S c = .ok S' ∧ DbEquiv db1 S'.db := by
  obtain ⟨crow, hfindC, hufacts⟩ := hfact
  have hfindC2 : findClient S.db.clients c.ou = some crow := by
    rw [← heq.1]; exact hfindC
  have hndC2 : (S.db.clients.map (fun r => r.id)).Nodup := by
    rw [← heq.1]; exact hndC
  unfold processClient
  dsimp only [allOk]
  rw [upsertClient_found S.db c.ou hfindC2 hndC2]
  refine ⟨_, rfl, ?_⟩
  exact processUsers_second_run g bs crow.id hndU
    (c.users.filter (fun x => x.uid != "")) _ heq hufacts

/-- Second-run pass over the whole client loop. -/
theorem migrateLoop_second_run (g : Nat → String) (bs : Nat) {db1 : DbState}
    (hndC : (db1.clients.map (fun r => r.id)).Nodup)
    (hndU : (db1.users.map (fun r => r.id)).Nodup) :
    ∀ (cs : List LdapClientEntry) (ps : PState),
    DbEquiv db1 ps.db →
    (∀ c ∈ cs, ClientFact db1 c) →
    DbEquiv db1 (migrateLoop allOk g bs ps cs).db := by
  intro cs
  induction cs with
  | nil =>
      intro ps heq _
      simpa [migrateLoop] using heq
  | cons c rest ih =>
      intro ps heq hfacts
      obtain ⟨S', hpc, heq'⟩ :=
        processClient_second_run g bs ps c hndC hndU heq (hfacts c (by simp))
      have hL : migrateLoop allOk g bs ps (c :: rest) =
          migrateLoop allOk g bs
            { S' with stats := { S'.stats with
                successfulClients := S'.stats.successfulClients + 1 } } rest := by
        unfold migrateLoop
        rw [List.foldl_cons, hpc]
      rw [hL]
      exact ih _ heq' (fun c0 h0 => hfacts c0 (by simp [h0]))

/-- A row of a saved table is the saved row or a row of the old table. -/
theorem saveUser_mem {l : List UserRow} {x r : UserRow}
    (h : r ∈ saveUser l x) : r = x ∨ r ∈ l := by
  unfold saveUser at h
  obtain ⟨y, hy, hfy⟩ := List.mem_map.mp h
  by_cases hb : (y.id == x.id) = true
  · rw [hb] at hfy; simp at hfy; exact Or.inl hfy.symm
  · rw [Bool.not_eq_true] at hb; rw [hb] at hfy; simp at hfy
    exact Or.inr (hfy ▸ hy)

/-- The store after one `processUser` step under the healthy oracle:
an update in place when the key exists, an appended fresh row otherwise. -/
theorem processUser_allOk_db (g : Nat → String) (clientId : Nat)
    (S : PState) (u : UserData) :
    (processUser allOk g clientId S u).db =
      match findUser S.db.users clientId u.uid with
      | some u2 => { S.db with users := saveUser S.db.users { u2 with
          first_name := jsOrStr u.givenName u2.first_name,
          last_name := jsOrStr u.sn u2.last_name,
          email := jsOrStr u.mail u2.email,
          password_hash :=
            jsOrOpt (convertLdapPassword g S.ctr u.userPassword).1 u2.password_hash,
          ldap_dn := u.dn } }
      | none => { S.db with
          users := S.db.users ++
            [{ id := S.db.nextUserId,
               client_id := clientId, username := u.uid,
               first_name := some u.givenName, last_name := some u.sn,
               email := some u.mail,
               password_hash := (convertLdapPassword g S.ctr u.userPassword).1,
               ldap_dn := u.dn }],
          nextUserId := S.db.nextUserId + 1 } := by
  unfold processUser upsertUser
  dsimp only [allOk]
  cases hf : findUser S.db.users clientId u.uid <;> rfl

/-- One first-run user step under the healthy oracle: identifiers stay
well-formed, the client table is untouched, the processed user's fixpoint
row now exists, rows under other keys are untouched, and foreign keys stay
bounded. -/
theorem processUser_allOk_saturates (g : Nat → String) (clientId : Nat)
    (S : PState) (u : UserData)
    (hnd : (S.db.users.map (fun r => r.id)).Nodup)
    (hbound : ∀ r ∈ S.db.users, r.id < S.db.nextUserId) :
    ((processUser allOk g clientId S u).db.users.map (fun r => r.id)).Nodup ∧
    (∀ r ∈ (processUser allOk g clientId S u).db.users,
      r.id < (processUser allOk g clientId S u).db.nextUserId) ∧
    (processUser allOk g clientId S u).db.clients = S.db.clients ∧
    (processUser allOk g clientId S u).db.nextClientId = S.db.nextClientId ∧
    UserKeyFact (processUser allOk g clientId S u).db clientId u ∧
    (∀ cid0 u0, UserKeyFact S.db cid0 u0 → ¬(cid0 = clientId ∧ u0.uid = u.uid) →
      UserKeyFact (processUser allOk g clientId S u).db cid0 u0) ∧
    (∀ K, (∀ r ∈ S.db.users, r.client_id < K) → clientId < K →
      ∀ r ∈ (processUser allOk g clientId S u).db.users, r.client_id < K) := by
  have hdb := processUser_allOk_db g clientId S u
  cases hf : findUser S.db.users clientId u.uid with
  | some u2 =>
      rw [hf] at hdb
      dsimp only at hdb
      obtain ⟨hk1, hk2⟩ := findUser_keys hf
      have hmem2 := List.mem_of_find?_eq_some hf
      rw [hdb]
      dsimp only
      have hother : ∀ cid0 un0, ¬(cid0 = clientId ∧ un0 = u.uid) →
          findUser (saveUser S.db.users { u2 with
            first_name := jsOrStr u.givenName u2.first_name,
            last_name := jsOrStr u.sn u2.last_name,
            email := jsOrStr u.mail u2.email,
            password_hash :=
              jsOrOpt (convertLdapPassword g S.ctr u.userPassword).1 u2.password_hash,
            ldap_dn := u.dn }) cid0 un0 = findUser S.db.users cid0 un0 := by
        intro cid0 un0 hne
        refine findUser_saveUser_other hnd ?_ ?_
        · exact ⟨u2, hmem2, rfl, rfl, rfl⟩
        · intro hcon
          exact hne ⟨hcon.1.symm.trans hk1, hcon.2.symm.trans hk2⟩
      refine ⟨?_, ?_, rfl, rfl, ?_, ?_, ?_⟩
      · rw [saveUser_map_id]; exact hnd
      · intro r hr
        rcases saveUser_mem hr with h | h
        · rw [h]; exact hbound u2 hmem2
        · exact hbound r h
      · refine ⟨_, findUser_saveUser_self hnd hf rfl hk1 hk2, ?_, ?_, ?_, rfl⟩
        · exact (jsOrStr_idem u.givenName u2.first_name).symm
        · exact (jsOrStr_idem u.sn u2.last_name).symm
        · exact (jsOrStr_idem u.mail u2.email).symm
      · intro cid0 u0 hfact hne
        obtain ⟨r0, hfind0, hp1, hp2, hp3, hp4⟩ := hfact
        refine ⟨r0, ?_, hp1, hp2, hp3, hp4⟩
        rw [hother cid0 u0.uid hne]
        exact hfind0
      · intro K hK hcK r hr
        rcases saveUser_mem hr with h | h
        · rw [h]; exact hK u2 hmem2
        · exact hK r h
  | none =>
      rw [hf] at hdb
      dsimp only at hdb
      rw [hdb]
      dsimp only
      refine ⟨?_, ?_, rfl, rfl, ?_, ?_, ?_⟩
      · rw [List.map_append]
        refine List.Nodup.append hnd (by simp) ?_
        intro a ha hb
        simp only [List.map_cons, List.map_nil, List.mem_singleton] at hb
        obtain ⟨r, hr, hra⟩ := List.mem_map.mp ha
        have := hbound r hr
        omega
      · intro r hr
        rcases List.mem_append.mp hr with h | h
        · have := hbound r h; omega
        · simp only [List.mem_singleton] at h
          rw [h]; dsimp only; omega
      · refine ⟨{
            id := S.db.nextUserId, client_id := clientId, username := u.uid,
            first_name := some u.givenName, last_name := some u.sn,
            email := some u.mail,
            password_hash := (convertLdapPassword g S.ctr u.userPassword).1,
            ldap_dn := u.dn }, ?_, ?_, ?_, ?_, rfl⟩
        · unfold findUser
          rw [List.find?_append]
          unfold findUser at hf
          rw [hf]
          simp [Option.or]
        · exact (jsOrStr_self u.givenName).symm
        · exact (jsOrStr_self u.sn).symm
        · exact (jsOrStr_self u.mail).symm
      · intro cid0 u0 hfact hne
        obtain ⟨r0, hfind0, hp1, hp2, hp3, hp4⟩ := hfact
        refine ⟨r0, ?_, hp1, hp2, hp3, hp4⟩
        unfold findUser
        rw [List.find?_append]
        unfold findUser at hfind0
        rw [hfind0]
        rfl
      · intro K hK hcK r hr
        rcases List.mem_append.mp hr with h | h
        · exact hK r h
        · simp only [List.mem_singleton] at h
          rw [h]; exact hcK

/-- First-run pass over one client's user list under the healthy oracle:
after the loop, every processed user has its fixpoint row, previously
established rows under other keys are untouched, and the store stays
well-formed. -/
theorem processUsers_allOk_saturates (g : Nat → String) (bs : Nat) (clientId : Nat) :
    ∀ (users : List UserData) (S : PState),
    (S.db.users.map (fun r => r.id)).Nodup →
    (∀ r ∈ S.db.users, r.id < S.db.nextUserId) →
    ((users.map (fun u => u.uid)).Nodup) →
    ((processUsers allOk g bs clientId S users).db.users.map (fun r => r.id)).Nodup ∧
    (∀ r ∈ (processUsers allOk g bs clientId S users).db.users,
      r.id < (processUsers allOk g bs clientId S users).db.nextUserId) ∧
    (processUsers allOk g bs clientId S users).db.clients = S.db.clients ∧
    (processUsers allOk g bs clientId S users).db.nextClientId = S.db.nextClientId ∧
    (∀ u ∈ users,
      UserKeyFact (processUsers allOk g bs clientId S users).db clientId u) ∧
    (∀ cid0 u0, UserKeyFact S.db cid0 u0 →
      (∀ u ∈ users, ¬(cid0 = clientId ∧ u0.uid = u.uid)) →
      UserKeyFact (processUsers allOk g bs clientId S users).db cid0 u0) ∧
    (∀ K, (∀ r ∈ S.db.users, r.client_id < K) → clientId < K →
      ∀ r ∈ (processUsers allOk g bs clientId S users).db.users, r.client_id < K) := by
  intro users
  induction users with
  | nil =>
      intro S h1 h2 _
      rw [processUsers_eq_foldl]
      exact ⟨h1, h2, rfl, rfl, fun u hu => absurd hu (List.not_mem_nil u),
        fun cid0 u0 hf _ => hf, fun K hK _ => hK⟩
  | cons u us ih =>
      intro S h1 h2 h3
      simp only [List.map_cons, List.nodup_cons] at h3
      obtain ⟨h3u, h3t⟩ := h3
      have hstep : processUsers allOk g bs clientId S (u :: us) =
          processUsers allOk g bs clientId (processUser allOk g clientId S u) us := by
        rw [processUsers_eq_foldl, processUsers_eq_foldl, List.foldl_cons]
      obtain ⟨p1, p2, p3, p4, p5, p6, p7⟩ :=
        processUser_allOk_saturates g clientId S u h1 h2
      obtain ⟨q1, q2, q3, q4, q5, q6, q7⟩ :=
        ih (processUser allOk g clientId S u) p1 p2 h3t
      rw [hstep]
      refine ⟨q1, q2, q3.trans p3, q4.trans p4, ?_, ?_, ?_⟩
      · intro v hv
        rcases List.mem_cons.mp hv with h | h
        · subst h
          refine q6 clientId v p5 ?_
          intro w hw hcon
          apply h3u
          rw [hcon.2]
          exact List.mem_map_of_mem _ hw
        · exact q5 v h
      · intro cid0 u0 hf0 hnall
        exact q6 cid0 u0 (p6 cid0 u0 hf0 (hnall u (by simp)))
          (fun w hw => hnall w (by simp [hw]))
      · intro K hK hcK r hr
        exact q7 K (p7 K hK hcK) hcK r hr

/-- Upserting a client whose natural key is absent creates a fresh row. -/
theorem upsertClient_notfound (st : DbState) (ou : String) (name : Option String)
    (hfind : findClient st.clients ou = none) :
    upsertClient true st ou name = .ok (⟨st.nextClientId, ou, name⟩,
      { st with
        clients := st.clients ++ [⟨st.nextClientId, ou, name⟩],
        nextClientId := st.nextClientId + 1 }) := by
  unfold upsertClient
  rw [hfind]
  rfl

/-- Behaviour of `processClient` under the healthy oracle when the client
natural key is not yet stored: insert the client row, then run the user
batch loop from `afterClientInsert`. -/
theorem processClient_allOk_notfound_eq (g : Nat → String) (bs : Nat)
    (S : PState) (c : LdapClientEntry)
    (hfind : findClient S.db.clients c.ou = none) :
    processClient allOk g bs S c = .ok (processUsers allOk g bs S.db.nextClientId
      (afterClientInsert S c) (c.users.filter (fun u => u.uid != ""))) := by
  unfold processClient afterClientInsert
  dsimp only [allOk]
  rw [upsertClient_notfound S.db c.ou none hfind]
  rfl

/-- One first-run client step under the healthy oracle, for a client whose
natural key is not yet stored: the step succeeds, appends exactly one
client row with a fresh identifier, saturates the client and all its
users, keeps the store well-formed, and leaves every previously
established client fact intact. -/
theorem processClient_allOk_saturates (g : Nat → String) (bs : Nat)
    (S : PState) (c : LdapClientEntry)
    (hndC : (S.db.clients.map (fun r => r.id)).Nodup)
    (hbC : ∀ r ∈ S.db.clients, r.id < S.db.nextClientId)
    (hndU : (S.db.users.map (fun r => r.id)).Nodup)
    (hbU : ∀ r ∈ S.db.users, r.id < S.db.nextUserId)
    (hfk : ∀ r ∈ S.db.users, r.client_id < S.db.nextClientId)
    (habs : ∀ r ∈ S.db.clients, r.client_id ≠ c.ou)
    (hndUid : ((c.users.filter (fun x => x.uid != "")).map (fun x => x.uid)).Nodup) :
    ∃ S', processClient allOk g bs S c = .ok S' ∧
      S'.db.clients = S.db.clients ++ [⟨S.db.nextClientId, c.ou, none⟩] ∧
      S'.db.nextClientId = S.db.nextClientId + 1 ∧
      (S'.db.clients.map (fun r => r.id)).Nodup ∧
      (∀ r ∈ S'.db.clients, r.id < S'.db.nextClientId) ∧
      (S'.db.users.map (fun r => r.id)).Nodup ∧
      (∀ r ∈ S'.db.users, r.id < S'.db.nextUserId) ∧
      (∀ r ∈ S'.db.users, r.client_id < S'.db.nextClientId) ∧
      ClientFact S'.db c ∧
      (∀ c0, ClientFact S.db c0 → ClientFact S'.db c0) := by
  have hfind : findClient S.db.clients c.ou = none := by
    apply List.find?_eq_none.mpr
    intro r hr
    simp [habs r hr]
  have hacU : (afterClientInsert S c).db.users = S.db.users := rfl
  have hacC : (afterClientInsert S c).db.clients =
      S.db.clients ++ [⟨S.db.nextClientId, c.ou, none⟩] := rfl
  have hacN : (afterClientInsert S c).db.nextClientId = S.db.nextClientId + 1 := rfl
  obtain ⟨q1, q2, q3, q4, q5, q6, q7⟩ :=
    processUsers_allOk_saturates g bs S.db.nextClientId
      (c.users.filter (fun u => u.uid != "")) (afterClientInsert S c)
      (by rw [hacU]; exact hndU)
      (by intro r hr; rw [hacU] at hr; exact hbU r hr)
      hndUid
  rw [hacC] at q3
  rw [hacN] at q4
  rw [processClient_allOk_notfound_eq g bs S c hfind]
  refine ⟨_, rfl, q3, q4, ?_, ?_, q1, q2, ?_, ?_, ?_⟩
  · rw [q3, List.map_append]
    refine List.Nodup.append hndC (by simp) ?_
    intro a ha hb
    simp only [List.map_cons, List.map_nil, List.mem_singleton] at hb
    obtain ⟨r, hr, hra⟩ := List.mem_map.mp ha
    have := hbC r hr
    omega
  · intro r hr
    rw [q3] at hr
    rw [q4]
    rcases List.mem_append.mp hr with h | h
    · have := hbC r h; omega
    · simp only [List.mem_singleton] at h
      rw [h]; dsimp only; omega
  · intro r hr
    rw [q4]
    refine q7 (S.db.nextClientId + 1) ?_ (by omega) r hr
    intro r0 hr0
    have := hfk r0 hr0
    omega
  · refine ⟨⟨S.db.nextClientId, c.ou, none⟩, ?_, ?_⟩
    · unfold findClient
      rw [q3, List.find?_append]
      unfold findClient at hfind
      rw [hfind]
      simp [Option.or]
    · intro u hu
      exact q5 u hu
  · intro c0 hc0
    obtain ⟨crow0, hfind0, hufacts0⟩ := hc0
    have hlt0 : crow0.id < S.db.nextClientId :=
      hbC crow0 (List.mem_of_find?_eq_some hfind0)
    refine ⟨crow0, ?_, ?_⟩
    · unfold findClient
      rw [q3, List.find?_append]
      unfold findClient at hfind0
      rw [hfind0]
      rfl
    · intro u hu
      refine q6 crow0.id u (hufacts0 u hu) ?_
      intro w hw hcon
      omega

/-- First-run pass over the whole client loop: starting from a store whose
identifiers are well-formed and which holds none of the enumerated client
keys, the loop saturates every enumerated client and keeps identifiers
well-formed. -/
theorem migrateLoop_saturates (g : Nat → String) (bs : Nat) :
    ∀ (cs : List LdapClientEntry) (ps : PState),
    (ps.db.clients.map (fun r => r.id)).Nodup →
    (∀ r ∈ ps.db.clients, r.id < ps.db.nextClientId) →
    (ps.db.users.map (fun r => r.id)).Nodup →
    (∀ r ∈ ps.db.users, r.id < ps.db.nextUserId) →
    (∀ r ∈ ps.db.users, r.client_id < ps.db.nextClientId) →
    ((cs.map (fun c => c.ou)).Nodup) →
    (∀ c ∈ cs, ∀ r ∈ ps.db.clients, r.client_id ≠ c.ou) →
    (∀ c ∈ cs,
      ((c.users.filter (fun x => x.uid != "")).map (fun x => x.uid)).Nodup) →
    ((migrateLoop allOk g bs ps cs).db.clients.map (fun r => r.id)).Nodup ∧
    ((migrateLoop allOk g bs ps cs).db.users.map (fun r => r.id)).Nodup ∧
    (∀ c ∈ cs, ClientFact (migrateLoop allOk g bs ps cs).db c) ∧
    (∀ c0, ClientFact ps.db c0 → ClientFact (migrateLoop allOk g bs ps cs).db c0) := by
  intro cs
  induction cs with
  | nil =>
      intro ps h1 h2 h3 h4 h5 h6 h7 h8
      exact ⟨h1, h3, fun c hc => absurd hc (List.not_mem_nil c), fun c0 h0 => h0⟩
  | cons c rest ih =>
      intro ps h1 h2 h3 h4 h5 h6 h7 h8
      simp only [List.map_cons, List.nodup_cons] at h6
      obtain ⟨h6c, h6t⟩ := h6
      obtain ⟨S', hpc, hp1, hp2, hp3, hp4, hp5, hp6, hp7, hp8, hp9⟩ :=
        processClient_allOk_saturates g bs ps c h1 h2 h3 h4 h5
          (fun r hr => h7 c (by simp) r hr) (h8 c (by simp))
      have hL : migrateLoop allOk g bs ps (c :: rest) =
          migrateLoop allOk g bs
            { S' with stats := { S'.stats with
                successfulClients := S'.stats.successfulClients + 1 } } rest := by
        unfold migrateLoop
        rw [List.foldl_cons, hpc]
      have habs' : ∀ c' ∈ rest,
          ∀ r ∈ ({ S' with stats := { S'.stats with
            successfulClients := S'.stats.successfulClients + 1 } } : PState).db.clients,
          r.client_id ≠ c'.ou := by
        intro c' hc' r hr
        dsimp only at hr
        rw [hp1] at hr
        rcases List.mem_append.mp hr with h | h
        · exact h7 c' (by simp [hc']) r h
        · simp only [List.mem_singleton] at h
          rw [h]
          dsimp only
          intro he
          apply h6c
          rw [he]
          exact List.mem_map_of_mem _ hc'
      obtain ⟨i1, i2, i3, i4⟩ := ih
        { S' with stats := { S'.stats with
            successfulClients := S'.stats.successfulClients + 1 } }
        hp3 hp4 hp5 hp6 hp7 h6t habs' (fun c' hc' => h8 c' (by simp [hc']))
      rw [hL]
      refine ⟨i1, i2, ?_, ?_⟩
      · intro c' hc'
        rcases List.mem_cons.mp hc' with h | h
        · subst h
          exact i4 c' hp8
        · exact i3 c' h
      · intro c0 h0
        exact i4 c0 (hp9 c0 h0)

/-- Under the healthy oracle, one client step always succeeds and the
statistics move by exactly this client's enumerated users, with no
failures and no error messages. -/
theorem processClient_allOk_ok (g : Nat → String) (bs : Nat)
    (S : PState) (c : LdapClientEntry) :
    ∃ S', processClient allOk g bs S c = .ok S' ∧
      S'.stats.failedClients = S.stats.failedClients ∧
      S'.stats.failedUsers = S.stats.failedUsers ∧
      S'.stats.errors = S.stats.errors ∧
      S'.stats.totalClients = S.stats.totalClients ∧
      S'.stats.successfulClients = S.stats.successfulClients ∧
      S'.stats.totalUsers = S.stats.totalUsers +
        (c.users.filter (fun u => u.uid != "")).length ∧
      S'.stats.successfulUsers = S.stats.successfulUsers +
        (c.users.filter (fun u => u.uid != "")).length := by
  obtain ⟨row, db', hup, hupU, hupL, hupN⟩ := upsertClient_ok_exists S.db c.ou none
  unfold processClient
  dsimp only [allOk]
  rw [hup]
  dsimp only
  refine ⟨_, rfl, ?_⟩
  obtain ⟨g1, g2, g3, g4, g5, g6, g7, g8, g9, g10, g11⟩ :=
    processUsers_counts allOk g bs row.id (c.users.filter (fun u => u.uid != ""))
      { db := db', ctr := S.ctr, trace := S.trace ++ [Event.clientUpsertCall c.ou],
        stats := { S.stats with totalUsers := S.stats.totalUsers +
          (c.users.filter (fun u => u.uid != "")).length } }
  simp only [allOk, Bool.not_true] at g1 g2 g3
  rw [List.filter_true] at g1
  rw [show (List.filter (fun u : UserData => false)
    (c.users.filter (fun u => u.uid != ""))) = [] from List.filter_false _] at g2 g3
  dsimp only at g1 g2 g3 g5 g6 g7 g8
  refine ⟨g8, by rw [g2]; rfl, by rw [g3]; simp, g5, g7, g6, by rw [g1]⟩

/-- Under the healthy oracle the client loop never counts a failure and
never appends an error; totals and success counters advance together. -/
theorem migrateLoop_allOk_stats (g : Nat → String) (bs : Nat) :
    ∀ (cs : List LdapClientEntry) (ps : PState),
    ((migrateLoop allOk g bs ps cs).stats.failedClients = ps.stats.failedClients) ∧
    ((migrateLoop allOk g bs ps cs).stats.failedUsers = ps.stats.failedUsers) ∧
    ((migrateLoop allOk g bs ps cs).stats.errors = ps.stats.errors) ∧
    ((migrateLoop allOk g bs ps cs).stats.totalClients = ps.stats.totalClients) ∧
    ((migrateLoop allOk g bs ps cs).stats.successfulClients =
      ps.stats.successfulClients + cs.length) ∧
    ((migrateLoop allOk g bs ps cs).stats.totalUsers = ps.stats.totalUsers +
      (cs.map (fun c => (c.users.filter (fun u => u.uid != "")).length)).sum) ∧
    ((migrateLoop allOk g bs ps cs).stats.successfulUsers =
      ps.stats.successfulUsers +
      (cs.map (fun c => (c.users.filter (fun u => u.uid != "")).length)).sum) := by
  intro cs
  induction cs with
  | nil =>
      intro ps
      exact ⟨rfl, rfl, rfl, rfl, by simp [migrateLoop], by simp [migrateLoop],
        by simp [migrateLoop]⟩
  | cons c rest ih =>
      intro ps
      obtain ⟨S', hpc, k1, k2, k3, k4, k5, k6, k7⟩ := processClient_allOk_ok g bs ps c
      have hL : migrateLoop allOk g bs ps (c :: rest) =
          migrateLoop allOk g bs
            { S' with stats := { S'.stats with
                successfulClients := S'.stats.successfulClients + 1 } } rest := by
        unfold migrateLoop
        rw [List.foldl_cons, hpc]
      obtain ⟨i1, i2, i3, i4, i5, i6, i7⟩ := ih
        { S' with stats := { S'.stats with
            successfulClients := S'.stats.successfulClients + 1 } }
      rw [hL]
      dsimp only at i1 i2 i3 i4 i5 i6 i7
      simp only [List.map_cons, List.sum_cons, List.length_cons]
      refine ⟨?_, ?_, ?_, ?_, ?_, ?_, ?_⟩
      · rw [i1, k1]
      · rw [i2, k2]
      · rw [i3, k3]
      · rw [i4, k4]
      · rw [i5, k5]; omega
      · rw [i6, k6]; omega
      · rw [i7, k7]; omega

/-- C3 (counterexample): re-running `migrate()` against the unchanged
one-client, one-user directory does not reproduce the same final store
state: the second run regenerates the stored password hash (a fresh
random bcrypt hash per run), so the user table differs between the runs
even though no new rows were created. -/
theorem c3_second_run_rewrites_hashes :
    (migrate allOk gSeq 100 false dirOne
        ((migrate allOk gSeq 100 false dirOne runStart).2)).2.db.users ≠
      (migrate allOk gSeq 100 false dirOne runStart).2.db.users ∧
    ((migrate allOk gSeq 100 false dirOne runStart).2.db.users.map
      (fun r => r.password_hash)) = [some "BCRYPT0"] ∧
    ((migrate allOk gSeq 100 false dirOne
        ((migrate allOk gSeq 100 false dirOne runStart).2)).2.db.users.map
      (fun r => r.password_hash)) = [some "BCRYPT1"] :=
  ⟨by decide, by decide, by decide⟩

/-- C3 (amended): running `migrate()` twice against an unchanged directory
source, into an initially empty store and with the distinct group names
and per-group distinct usernames the directory's DN uniqueness guarantees,
yields the same final store state except for the regenerated password
hashes: the second run creates zero new client rows and zero new user
rows (the client table and every generated identifier are unchanged, and
the user tables agree row by row on everything but the stored hash —
upserts are keyed by the natural and composite keys), and both runs
report successful counts equal to total counts with failed counts of
zero, with identical totals. -/
theorem c3_idempotent_up_to_hashes (g : Nat → String) (bs : Nat) (dr dr' : Bool)
    (d : List LdapClientEntry) (rs : RunState)
    (hcl : rs.db.clients = []) (hus : rs.db.users = [])
    (hndC : ((filterClients d).map (fun c => c.ou)).Nodup)
    (hndU : ∀ c ∈ filterClients d,
      ((c.users.filter (fun x => x.uid != "")).map (fun x => x.uid)).Nodup) :
    ((migrate allOk g bs dr' d (migrate allOk g bs dr d rs).2).2.db.clients =
      (migrate allOk g bs dr d rs).2.db.clients) ∧
    ((migrate allOk g bs dr' d (migrate allOk g bs dr d rs).2).2.db.users.length =
      (migrate allOk g bs dr d rs).2.db.users.length) ∧
    ((migrate allOk g bs dr' d (migrate allOk g bs dr d rs).2).2.db.nextClientId =
      (migrate allOk g bs dr d rs).2.db.nextClientId) ∧
    ((migrate allOk g bs dr' d (migrate allOk g bs dr d rs).2).2.db.nextUserId =
      (migrate allOk g bs dr d rs).2.db.nextUserId) ∧
    List.Forall₂ sameExceptHash (migrate allOk g bs dr d rs).2.db.users
      (migrate allOk g bs dr' d (migrate allOk g bs dr d rs).2).2.db.users ∧
    (∃ res1 res2,
      (migrate allOk g bs dr d rs).1 = .ok res1 ∧
      (migrate allOk g bs dr' d (migrate allOk g bs dr d rs).2).1 = .ok res2 ∧
      res1.stats.successfulClients = res1.stats.totalClients ∧
      res1.stats.failedClients = 0 ∧
      res1.stats.successfulUsers = res1.stats.totalUsers ∧
      res1.stats.failedUsers = 0 ∧
      res2.stats.successfulClients = res2.stats.totalClients ∧
      res2.stats.failedClients = 0 ∧
      res2.stats.successfulUsers = res2.stats.totalUsers ∧
      res2.stats.failedUsers = 0 ∧
      res2.stats.totalClients = res1.stats.totalClients ∧
      res2.stats.totalUsers = res1.stats.totalUsers) := by
  obtain ⟨ndC1, ndU1, facts1, _⟩ :=
    migrateLoop_saturates g bs (filterClients d)
      { db := rs.db, ctr := rs.hashCtr, trace := rs.trace,
        stats := { zeroStats with totalClients := (filterClients d).length } }
      (by simp [hcl]) (by simp [hcl]) (by simp [hus]) (by simp [hus])
      (by simp [hus]) hndC (by simp [hcl]) hndU
  obtain ⟨ec, eu, enc, enu⟩ :=
    @migrateLoop_second_run g bs ((migrate allOk g bs dr d rs).2.db) ndC1 ndU1
      (filterClients d)
      { db := (migrate allOk g bs dr d rs).2.db,
        ctr := (migrate allOk g bs dr d rs).2.hashCtr,
        trace := (migrate allOk g bs dr d rs).2.trace,
        stats := { zeroStats with totalClients := (filterClients d).length } }
      ⟨rfl, forall2_sameExceptHash_refl _, rfl, rfl⟩
      (fun c hc => facts1 c hc)
  obtain ⟨t1a, t1b, t1c, t1d, t1e, t1f, t1g⟩ :=
    migrateLoop_allOk_stats g bs (filterClients d)
      { db := rs.db, ctr := rs.hashCtr, trace := rs.trace,
        stats := { zeroStats with totalClients := (filterClients d).length } }
  obtain ⟨t2a, t2b, t2c, t2d, t2e, t2f, t2g⟩ :=
    migrateLoop_allOk_stats g bs (filterClients d)
      { db := (migrate allOk g bs dr d rs).2.db,
        ctr := (migrate allOk g bs dr d rs).2.hashCtr,
        trace := (migrate allOk g bs dr d rs).2.trace,
        stats := { zeroStats with totalClients := (filterClients d).length } }
  dsimp only [zeroStats] at t1a t1b t1d t1e t1f t1g t2a t2b t2d t2e t2f t2g
  have w1 : (migrateLoop allOk g bs
      { db := rs.db, ctr := rs.hashCtr, trace := rs.trace,
        stats := { zeroStats with totalClients := (filterClients d).length } }
      (filterClients d)).stats.successfulClients =
      (migrateLoop allOk g bs
      { db := rs.db, ctr := rs.hashCtr, trace := rs.trace,
        stats := { zeroStats with totalClients := (filterClients d).length } }
      (filterClients d)).stats.totalClients := by
    dsimp only [zeroStats]
    rw [t1e, t1d]; omega
  have w2 : (migrateLoop allOk g bs
      { db := rs.db, ctr := rs.hashCtr, trace := rs.trace,
        stats := { zeroStats with totalClients := (filterClients d).length } }
      (filterClients d)).stats.successfulUsers =
      (migrateLoop allOk g bs
      { db := rs.db, ctr := rs.hashCtr, trace := rs.trace,
        stats := { zeroStats with totalClients := (filterClients d).length } }
      (filterClients d)).stats.totalUsers := by
    dsimp only [zeroStats]
    rw [t1g, t1f]
  have w3 : (migrateLoop allOk g bs
      { db := (migrate allOk g bs dr d rs).2.db,
        ctr := (migrate allOk g bs dr d rs).2.hashCtr,
        trace := (migrate allOk g bs dr d rs).2.trace,
        stats := { zeroStats with totalClients := (filterClients d).length } }
      (filterClients d)).stats.successfulClients =
      (migrateLoop allOk g bs
      { db := (migrate allOk g bs dr d rs).2.db,
        ctr := (migrate allOk g bs dr d rs).2.hashCtr,
        trace := (migrate allOk g bs dr d rs).2.trace,
        stats := { zeroStats with totalClients := (filterClients d).length } }
      (filterClients d)).stats.totalClients := by
    dsimp only [zeroStats]
    rw [t2e, t2d]; omega
  have w4 : (migrateLoop allOk g bs
      { db := (migrate allOk g bs dr d rs).2.db,
        ctr := (migrate allOk g bs dr d rs).2.hashCtr,
        trace := (migrate allOk g bs dr d rs).2.trace,
        stats := { zeroStats with totalClients := (filterClients d).length } }
      (filterClients d)).stats.successfulUsers =
      (migrateLoop allOk g bs
      { db := (migrate allOk g bs dr d rs).2.db,
        ctr := (migrate allOk g bs dr d rs).2.hashCtr,
        trace := (migrate allOk g bs dr d rs).2.trace,
        stats := { zeroStats with totalClients := (filterClients d).length } }
      (filterClients d)).stats.totalUsers := by
    dsimp only [zeroStats]
    rw [t2g, t2f]
  have w5 : (migrateLoop allOk g bs
      { db := (migrate allOk g bs dr d rs).2.db,
        ctr := (migrate allOk g bs dr d rs).2.hashCtr,
        trace := (migrate allOk g bs dr d rs).2.trace,
        stats := { zeroStats with totalClients := (filterClients d).length } }
      (filterClients d)).stats.totalClients =
      (migrateLoop allOk g bs
      { db := rs.db, ctr := rs.hashCtr, trace := rs.trace,
        stats := { zeroStats with totalClients := (filterClients d).length } }
      (filterClients d)).stats.totalClients := by
    dsimp only [zeroStats]
    rw [t2d, t1d]
  have w6 : (migrateLoop allOk g bs
      { db := (migrate allOk g bs dr d rs).2.db,
        ctr := (migrate allOk g bs dr d rs).2.hashCtr,
        trace := (migrate allOk g bs dr d rs).2.trace,
        stats := { zeroStats with totalClients := (filterClients d).length } }
      (filterClients d)).stats.totalUsers =
      (migrateLoop allOk g bs
      { db := rs.db, ctr := rs.hashCtr, trace := rs.trace,
        stats := { zeroStats with totalClients := (filterClients d).length } }
      (filterClients d)).stats.totalUsers := by
    dsimp only [zeroStats]
    rw [t2f, t1f]
  exact ⟨ec.symm, (List.Forall₂.length_eq eu).symm, enc.symm, enu.symm, eu,
    _, _, rfl, rfl, w1, t1a, w2, t1b, w3, t2a, w4, t2b, w5, w6⟩

/-- Witness for the amended C3 idempotence statement: the one-client,
one-user directory of the counterexample satisfies all hypotheses and
the conclusion holds for it. -/
theorem c3_idempotent_up_to_hashes_witness :
    runStart.db.clients = [] ∧ runStart.db.users = [] ∧
    ((filterClients dirOne).map (fun c => c.ou)).Nodup ∧
    (∀ c ∈ filterClients dirOne,
      ((c.users.filter (fun x => x.uid != "")).map (fun x => x.uid)).Nodup) ∧
    (((migrate allOk gSeq 100 false dirOne
        (migrate allOk gSeq 100 false dirOne runStart).2).2.db.clients =
      (migrate allOk gSeq 100 false dirOne runStart).2.db.clients) ∧
    ((migrate allOk gSeq 100 false dirOne
        (migrate allOk gSeq 100 false dirOne runStart).2).2.db.users.length =
      (migrate allOk gSeq 100 false dirOne runStart).2.db.users.length) ∧
    ((migrate allOk gSeq 100 false dirOne
        (migrate allOk gSeq 100 false dirOne runStart).2).2.db.nextClientId =
      (migrate allOk gSeq 100 false dirOne runStart).2.db.nextClientId) ∧
    ((migrate allOk gSeq 100 false dirOne
        (migrate allOk gSeq 100 false dirOne runStart).2).2.db.nextUserId =
      (migrate allOk gSeq 100 false dirOne runStart).2.db.nextUserId) ∧
    List.Forall₂ sameExceptHash (migrate allOk gSeq 100 false dirOne runStart).2.db.users
      (migrate allOk gSeq 100 false dirOne
        (migrate allOk gSeq 100 false dirOne runStart).2).2.db.users ∧
    (∃ res1 res2,
      (migrate allOk gSeq 100 false dirOne runStart).1 = .ok res1 ∧
      (migrate allOk gSeq 100 false dirOne
        (migrate allOk gSeq 100 false dirOne runStart).2).1 = .ok res2 ∧
      res1.stats.successfulClients = res1.stats.totalClients ∧
      res1.stats.failedClients = 0 ∧
      res1.stats.successfulUsers = res1.stats.totalUsers ∧
      res1.stats.failedUsers = 0 ∧
      res2.stats.successfulClients = res2.stats.totalClients ∧
      res2.stats.failedClients = 0 ∧
      res2.stats.successfulUsers = res2.stats.totalUsers ∧
      res2.stats.failedUsers = 0 ∧
      res2.stats.totalClients = res1.stats.totalClients ∧
      res2.stats.totalUsers = res1.stats.totalUsers)) :=
  ⟨rfl, rfl, by decide, by decide,
    c3_idempotent_up_to_hashes gSeq 100 false false dirOne runStart rfl rfl
      (by decide) (by decide)⟩

end LdapPg
